import Mathlib

/-!
# ESP32 handheld console: the Tetris game engine (`src/tetris.cpp`)

A shallow embedding of the game logic of `tetris.cpp` and theorems about it.

Conventions of the embedding.

* The global variables of the sketch are the fields of one record, `Game`;
  every function of the sketch that touches globals takes and returns a `Game`.
* `gameBoard[8][8]` and `boardColors[8][8]` are functions of two indices
  (column, row); the code only ever touches indices below 8, and every
  statement about boards speaks of those indices only.
* C `int` values are `Int`; signed overflow is undefined in C and is not
  modelled. `unsigned int` and `unsigned long` (32 bits on the ESP32) are `Nat`
  with an explicit `% 2^32` at every arithmetic operation.
* `millis()`, `digitalRead` and `random` are inputs (`Input`, and the raw
  random sequence of `selectPieceLoop`).
* The loops whose trip count depends on data (the sweep of `clearLines`, the
  hard drop and the piece selection of the spawn) take a fuel argument that
  bounds the number of executions of the loop body; they return `none` when the
  bound is hit.
* Sound, serial output and `delay` do not touch game state and are left out;
  `updateDisplay` only writes `leds` and is modelled on its own.
-/

namespace Tetris

/-! ## Constants -/

@[reducible] def MATRIX_WIDTH : Nat := 8
@[reducible] def MATRIX_HEIGHT : Nat := 8
@[reducible] def NUM_LEDS : Nat := 64
@[reducible] def INITIAL_GAME_SPEED : Nat := 600
@[reducible] def SPEED_INCREASE : Nat := 0
@[reducible] def MIN_GAME_SPEED : Nat := 2
@[reducible] def DEBOUNCE_TIME : Nat := 150

/-- Size of the 32-bit unsigned range (`unsigned int`, `unsigned long`). -/
@[reducible] def U32 : Nat := 4294967296

/-- Unsigned 32-bit addition. -/
def uadd32 (a b : Nat) : Nat := (a + b) % U32

/-- Unsigned 32-bit subtraction. -/
def usub32 (a b : Nat) : Nat := (a % U32 + U32 - b % U32) % U32

/-- Unsigned 32-bit multiplication. -/
def umul32 (a b : Nat) : Nat := (a * b) % U32

/-! ## Colours and the piece catalog -/

/-- An RGB colour (`CRGB` of FastLED). -/
structure CRGB where
  r : Nat
  g : Nat
  b : Nat
deriving DecidableEq, Repr

def BLACK : CRGB := ⟨0, 0, 0⟩
def RED : CRGB := ⟨255, 0, 0⟩
def GREEN : CRGB := ⟨0, 255, 0⟩
def BLUE : CRGB := ⟨0, 0, 255⟩
def YELLOW : CRGB := ⟨255, 255, 0⟩
def CYAN : CRGB := ⟨0, 255, 255⟩
def MAGENTA : CRGB := ⟨255, 0, 255⟩
def ORANGE : CRGB := ⟨255, 165, 0⟩

/-- The `Tetromino` struct: `shapes[4][4][2]`, `numCells`, `color`.
A cell `{a, b}` of the C initialiser is the pair `(a, b)`: index 0 is the
column offset and index 1 the row offset. -/
structure Tetromino where
  shapes : List (List (Nat × Nat))
  numCells : Nat
  color : CRGB
deriving DecidableEq, Repr

/-- The table `tetrominos[7]`, in the order I, O, T, S, Z, J, L. -/
def tetrominos : List Tetromino := [
  ⟨[[(0,0), (1,0), (2,0), (3,0)], [(0,0), (0,1), (0,2), (0,3)], [(0,0), (1,0), (2,0), (3,0)], [(0,0), (0,1), (0,2), (0,3)]], 4, CYAN⟩,
  ⟨[[(0,0), (1,0), (0,1), (1,1)], [(0,0), (1,0), (0,1), (1,1)], [(0,0), (1,0), (0,1), (1,1)], [(0,0), (1,0), (0,1), (1,1)]], 4, YELLOW⟩,
  ⟨[[(0,0), (1,0), (2,0), (1,1)], [(1,0), (0,1), (1,1), (1,2)], [(1,0), (0,1), (1,1), (2,1)], [(0,0), (0,1), (0,2), (1,1)]], 4, MAGENTA⟩,
  ⟨[[(1,0), (2,0), (0,1), (1,1)], [(0,0), (0,1), (1,1), (1,2)], [(1,0), (2,0), (0,1), (1,1)], [(0,0), (0,1), (1,1), (1,2)]], 4, GREEN⟩,
  ⟨[[(0,0), (1,0), (1,1), (2,1)], [(1,0), (0,1), (1,1), (0,2)], [(0,0), (1,0), (1,1), (2,1)], [(1,0), (0,1), (1,1), (0,2)]], 4, RED⟩,
  ⟨[[(0,0), (0,1), (1,1), (2,1)], [(1,0), (2,0), (1,1), (1,2)], [(0,0), (1,0), (2,0), (2,1)], [(0,0), (0,1), (0,2), (1,0)]], 4, BLUE⟩,
  ⟨[[(2,0), (0,1), (1,1), (2,1)], [(0,0), (1,0), (1,1), (1,2)], [(0,0), (1,0), (2,0), (0,1)], [(0,0), (0,1), (0,2), (1,2)]], 4, ORANGE⟩
]

/-- The entry `tetrominos[pieceIndex]` (an index past the table reads a record
with no cells; the code never uses such an index). -/
def tetromino (pieceIndex : Nat) : Tetromino :=
  tetrominos.getD pieceIndex ⟨[], 0, BLACK⟩

/-- The pair `tetrominos[pieceIndex].shapes[rotation][i]`. -/
def shapeCell (pieceIndex rotation i : Nat) : Nat × Nat :=
  (((tetromino pieceIndex).shapes.getD rotation []).getD i (0, 0))

/-- The value `tetrominos[pieceIndex].shapes[rotation][i][0]`. -/
def shapeX (pieceIndex rotation i : Nat) : Int := ((shapeCell pieceIndex rotation i).1 : Nat)

/-- The value `tetrominos[pieceIndex].shapes[rotation][i][1]`. -/
def shapeY (pieceIndex rotation i : Nat) : Int := ((shapeCell pieceIndex rotation i).2 : Nat)

/-! ## Game state -/

/-- The global variables of the sketch. `lastPiece` is the function-local
`static` of `spawnNewPiece`. -/
@[ext] structure Game where
  gameBoard : Nat → Nat → Bool
  boardColors : Nat → Nat → CRGB
  currentPiece : Nat
  currentRotation : Nat
  currentX : Int
  currentY : Int
  lastFallTime : Nat
  gameSpeed : Nat
  gameOver : Bool
  isPaused : Bool
  score : Nat
  level : Nat
  leftPressed : Bool
  rightPressed : Bool
  rotatePressed : Bool
  dropPressed : Bool
  pausePressed : Bool
  lastButtonCheckTime : Nat
  lastPiece : Nat

/-- Assignment `a[x][y] = v` to a two-dimensional array. -/
def setAt {α : Type} (a : Nat → Nat → α) (x y : Nat) (v : α) : Nat → Nat → α :=
  fun x' y' => if x' = x ∧ y' = y then v else a x' y'

/-! ## Game logic -/

/-- One pass of the loop body of `isValidPosition` for the absolute cell
`(x, y)`: `false` when the body returns false. -/
def cellAllowed (g : Game) (x y : Int) : Bool :=
  if x < 0 ∨ x ≥ MATRIX_WIDTH then false
  else if y ≥ MATRIX_HEIGHT then false
  else if y ≥ 0 ∧ g.gameBoard x.toNat y.toNat = true then false
  else true

/-- The function `isValidPosition`: the loop over the cells returns false at
the first cell its body rejects, and true when it rejects none. -/
def isValidPosition (g : Game) (pieceIndex rotation : Nat) (posX posY : Int) : Bool :=
  (List.range (tetromino pieceIndex).numCells).all fun i =>
    cellAllowed g (posX + shapeX pieceIndex rotation i) (posY + shapeY pieceIndex rotation i)

/-- The function `movePieceLeft`. -/
def movePieceLeft (g : Game) : Game × Bool :=
  if isValidPosition g g.currentPiece g.currentRotation (g.currentX - 1) g.currentY then
    ({ g with currentX := g.currentX - 1 }, true)
  else (g, false)

/-- The function `movePieceRight`. -/
def movePieceRight (g : Game) : Game × Bool :=
  if isValidPosition g g.currentPiece g.currentRotation (g.currentX + 1) g.currentY then
    ({ g with currentX := g.currentX + 1 }, true)
  else (g, false)

/-- The function `movePieceDown`. -/
def movePieceDown (g : Game) : Game × Bool :=
  if isValidPosition g g.currentPiece g.currentRotation g.currentX (g.currentY + 1) then
    ({ g with currentY := g.currentY + 1 }, true)
  else (g, false)

/-- The function `rotatePiece`. -/
def rotatePiece (g : Game) : Game × Bool :=
  let nextRotation := (g.currentRotation + 1) % 4
  if isValidPosition g g.currentPiece nextRotation g.currentX g.currentY then
    ({ g with currentRotation := nextRotation }, true)
  else if isValidPosition g g.currentPiece nextRotation (g.currentX - 1) g.currentY then
    ({ g with currentX := g.currentX - 1, currentRotation := nextRotation }, true)
  else if isValidPosition g g.currentPiece nextRotation (g.currentX + 1) g.currentY then
    ({ g with currentX := g.currentX + 1, currentRotation := nextRotation }, true)
  else (g, false)

/-- The loop body of `placePiece` for cell number `i`. -/
def placeCell (g : Game) (i : Nat) : Game :=
  let x := g.currentX + shapeX g.currentPiece g.currentRotation i
  let y := g.currentY + shapeY g.currentPiece g.currentRotation i
  if x ≥ 0 ∧ x < MATRIX_WIDTH ∧ y ≥ 0 ∧ y < MATRIX_HEIGHT then
    { g with
      gameBoard := setAt g.gameBoard x.toNat y.toNat true
      boardColors := setAt g.boardColors x.toNat y.toNat (tetromino g.currentPiece).color }
  else g

/-- The function `placePiece`. -/
def placePiece (g : Game) : Game :=
  (List.range (tetromino g.currentPiece).numCells).foldl placeCell g

/-- The function `getPieceWidth`. -/
def getPieceWidth (pieceIndex rotation : Nat) : Int :=
  let mm := (List.range (tetromino pieceIndex).numCells).foldl
    (fun (mm : Int × Int) i =>
      let x := shapeX pieceIndex rotation i
      let minX := if x < mm.1 then x else mm.1
      let maxX := if x > mm.2 then x else mm.2
      (minX, maxX))
    ((10 : Int), (-10 : Int))
  mm.2 - mm.1 + 1

/-- The function `spawnNewPiece`, after its `do ... while` has selected
`newPiece`. -/
def spawnNewPiece (g : Game) (newPiece : Nat) : Game × Bool :=
  let g1 := { g with lastPiece := newPiece, currentPiece := newPiece, currentRotation := 0 }
  let pieceWidth := getPieceWidth g1.currentPiece g1.currentRotation
  let g2 := { g1 with currentX := Int.tdiv ((MATRIX_WIDTH : Int) - pieceWidth) 2, currentY := 0 }
  (g2, isValidPosition g2 g2.currentPiece g2.currentRotation g2.currentX g2.currentY)

/-! ## Line clearing -/

/-- The inner scan of `clearLines`: `fullLine` for row `y`. -/
def isFullLine (g : Game) (y : Nat) : Bool :=
  (List.range MATRIX_WIDTH).all fun x => g.gameBoard x y

/-- The loop over `col` copying row `row - 1` into row `row`. -/
def copyRowDown (g : Game) (row : Nat) : Game :=
  (List.range MATRIX_WIDTH).foldl
    (fun g col =>
      { g with
        gameBoard := setAt g.gameBoard col row (g.gameBoard col (row - 1))
        boardColors := setAt g.boardColors col row (g.boardColors col (row - 1)) })
    g

/-- The loop `for (row = y; row > 0; row--)` of `clearLines`, started at
`row`. -/
def shiftRowsDown : Nat → Game → Game
  | 0, g => g
  | row + 1, g => shiftRowsDown row (copyRowDown g (row + 1))

/-- The loop over `col` that blanks row 0. -/
def clearTopRow (g : Game) : Game :=
  (List.range MATRIX_WIDTH).foldl
    (fun g col =>
      { g with
        gameBoard := setAt g.gameBoard col 0 false
        boardColors := setAt g.boardColors col 0 BLACK })
    g

/-- The sweep `for (y = MATRIX_HEIGHT - 1; y >= 0; y--)` of `clearLines`
from the loop test onwards, with row index `y` and counter `linesCleared`.
`fuel` bounds the number of executions of the loop body. After a clear the
body does `y++` and the loop header `y--`, so the same row is tested again. -/
def clearLinesLoop : Nat → Int → Game → Nat → Option (Game × Nat)
  | fuel, y, g, linesCleared =>
    if y ≥ 0 then
      match fuel with
      | 0 => none
      | fuel + 1 =>
        if isFullLine g y.toNat then
          clearLinesLoop fuel (y + 1 - 1) (clearTopRow (shiftRowsDown y.toNat g)) (linesCleared + 1)
        else
          clearLinesLoop fuel (y - 1) g linesCleared
    else some (g, linesCleared)

/-- The `switch (linesCleared)` of `clearLines`: the value of `points`
(as a 32-bit pattern; the product involves the unsigned `level`). -/
def linePoints (linesCleared level : Nat) : Nat :=
  match linesCleared with
  | 1 => umul32 20 level
  | 2 => umul32 50 level
  | 3 => umul32 150 level
  | 4 => umul32 600 level
  | _ => 0

/-- The function `clearLines`. -/
def clearLines (fuel : Nat) (g : Game) : Option Game :=
  match clearLinesLoop fuel ((MATRIX_HEIGHT : Int) - 1) g 0 with
  | none => none
  | some (g1, linesCleared) =>
    if linesCleared > 0 then
      some { g1 with score := uadd32 g1.score (linePoints linesCleared g1.level) }
    else some g1

/-- The function `resetGame`; `newPiece` is the kind its spawn selects. -/
def resetGame (g : Game) (newPiece : Nat) : Game :=
  let g1 := { g with
    gameBoard := fun _ _ => false
    gameSpeed := INITIAL_GAME_SPEED
    gameOver := false
    score := 0
    level := 1 }
  (spawnNewPiece g1 newPiece).1

/-! ## Control loop -/

/-- What one iteration of `loop` reads from outside: the button levels
(`true` = pressed, pin reads LOW), the clock and the random source.
`millis k` is the value `millis()` returns at its `k`-th place of call in the
iteration: 0 and 1 in `checkPauseButton` (test, accept), 2 the test of
`checkGameButtons`, 3..6 its left, right, rotate and drop accepts, 7 the
gravity test and 8 the assignment to `lastFallTime`. `newPiece k` is the kind
selected by the spawn of the hard drop (0), of the gravity lock (1) and of
`resetGame` (2). -/
structure Input where
  left : Bool
  right : Bool
  rotate : Bool
  drop : Bool
  pause : Bool
  millis : Nat → Nat
  newPiece : Nat → Fin 7

/-- The value of `millis()` as an `unsigned long`. -/
def Input.now (inp : Input) (k : Nat) : Nat := inp.millis k % U32

/-- The function `checkPauseButton`. -/
def checkPauseButton (g : Game) (inp : Input) : Game :=
  if usub32 (inp.now 0) g.lastButtonCheckTime > DEBOUNCE_TIME then
    let pauseState := inp.pause
    if pauseState = true ∧ g.pausePressed = false then
      { g with
        pausePressed := true
        isPaused := !g.isPaused
        lastButtonCheckTime := inp.now 1 }
    else if pauseState = false then { g with pausePressed := false }
    else g
  else g

/-- The loop `while (movePieceDown()) dropDistance++` of the hard drop.
`fuel` bounds the number of executions of the loop body. -/
def dropLoop : Nat → Game → Nat → Option (Game × Nat)
  | fuel, g, dropDistance =>
    if (movePieceDown g).2 then
      match fuel with
      | 0 => none
      | fuel + 1 => dropLoop fuel (movePieceDown g).1 (dropDistance + 1)
    else some ((movePieceDown g).1, dropDistance)

/-- The statements `placePiece(); clearLines(); if (!spawnNewPiece())
gameOver = true;`, which the hard drop and the gravity lock both run. -/
def lockAndSpawn (fuel : Nat) (g : Game) (newPiece : Nat) : Option Game :=
  match clearLines fuel (placePiece g) with
  | none => none
  | some g2 =>
    if (spawnNewPiece g2 newPiece).2 then some (spawnNewPiece g2 newPiece).1
    else some { (spawnNewPiece g2 newPiece).1 with gameOver := true }

/-- The hard-drop command of `checkGameButtons`: the statements from
`int dropDistance = 0` to `if (!spawnNewPiece()) gameOver = true`. -/
def hardDrop (fuel : Nat) (g : Game) (newPiece : Nat) : Option Game :=
  match dropLoop fuel g 0 with
  | none => none
  | some (g1, dropDistance) =>
    lockAndSpawn fuel { g1 with score := uadd32 g1.score (dropDistance * 2) } newPiece

/-- The block `// LEFT` of `checkGameButtons`. -/
def leftButton (g : Game) (inp : Input) : Game :=
  if inp.left = true ∧ g.leftPressed = false then
    { (movePieceLeft { g with leftPressed := true }).1 with lastButtonCheckTime := inp.now 3 }
  else if inp.left = false then { g with leftPressed := false }
  else g

/-- The block `// RIGHT` of `checkGameButtons`. -/
def rightButton (g : Game) (inp : Input) : Game :=
  if inp.right = true ∧ g.rightPressed = false then
    { (movePieceRight { g with rightPressed := true }).1 with lastButtonCheckTime := inp.now 4 }
  else if inp.right = false then { g with rightPressed := false }
  else g

/-- The block `// ROTATE` of `checkGameButtons`. -/
def rotateButton (g : Game) (inp : Input) : Game :=
  if inp.rotate = true ∧ g.rotatePressed = false then
    { (rotatePiece { g with rotatePressed := true }).1 with lastButtonCheckTime := inp.now 5 }
  else if inp.rotate = false then { g with rotatePressed := false }
  else g

/-- The block `// HARD DROP` of `checkGameButtons`. -/
def dropButton (fuel : Nat) (g : Game) (inp : Input) : Option Game :=
  if inp.drop = true ∧ g.dropPressed = false then
    match hardDrop fuel { g with dropPressed := true } (inp.newPiece 0) with
    | none => none
    | some g4 => some { g4 with lastButtonCheckTime := inp.now 6 }
  else if inp.drop = false then some { g with dropPressed := false }
  else some g

/-- The function `checkGameButtons`: behind one debounce test, the four
blocks in the order left, right, rotate, hard drop. -/
def checkGameButtons (fuel : Nat) (g : Game) (inp : Input) : Option Game :=
  if usub32 (inp.now 2) g.lastButtonCheckTime > DEBOUNCE_TIME then
    dropButton fuel (rotateButton (rightButton (leftButton g inp) inp) inp) inp
  else some g

/-- The function `checkAnyButtonPressed`. -/
def checkAnyButtonPressed (inp : Input) : Bool :=
  inp.left || inp.right || inp.rotate || inp.drop || inp.pause

/-- The lock branch of the gravity logic: the body of
`if (!movePieceDown())` in `loop`. -/
def gravityLock (fuel : Nat) (g : Game) (newPiece : Nat) : Option Game :=
  match lockAndSpawn fuel g newPiece with
  | none => none
  | some g3 =>
    let g4 :=
      if g3.gameSpeed > MIN_GAME_SPEED then
        { g3 with gameSpeed := usub32 g3.gameSpeed SPEED_INCREASE }
      else g3
    if g4.score > 0 ∧ g4.score % 500 = 0 then
      some { g4 with level := uadd32 g4.level 1 }
    else some g4

/-- The gravity tick: the body of `if (millis() - lastFallTime > gameSpeed)`
in `loop`. -/
def gravityTick (fuel : Nat) (g : Game) (inp : Input) : Option Game :=
  let r :=
    if (movePieceDown g).2 then some (movePieceDown g).1
    else gravityLock fuel (movePieceDown g).1 (inp.newPiece 1)
  match r with
  | none => none
  | some g1 => some { g1 with lastFallTime := inp.now 8 }

/-- The function `loop`: one iteration of the control loop. -/
def loop (fuel : Nat) (g : Game) (inp : Input) : Option Game :=
  let g1 := checkPauseButton g inp
  if g1.isPaused then some g1
  else if g1.gameOver then
    if checkAnyButtonPressed inp then some (resetGame g1 (inp.newPiece 2))
    else some g1
  else
    match checkGameButtons fuel g1 inp with
    | none => none
    | some g2 =>
      if usub32 (inp.now 7) g2.lastFallTime > g2.gameSpeed then gravityTick fuel g2 inp
      else some g2

/-! ## Specification vocabulary -/

/-- The board cell at integer coordinates `(x, y)` lies inside the 8 x 8
grid and is occupied. -/
def occupiedAt (g : Game) (x y : Int) : Prop :=
  0 ≤ x ∧ x < 8 ∧ 0 ≤ y ∧ y < 8 ∧ g.gameBoard x.toNat y.toNat = true

instance (g : Game) (x y : Int) : Decidable (occupiedAt g x y) := by
  unfold occupiedAt; infer_instance

/-- The active piece is in a legal configuration: `isValidPosition` accepts
its kind, rotation and position against the current board. -/
def LegalPiece (g : Game) : Prop :=
  isValidPosition g g.currentPiece g.currentRotation g.currentX g.currentY = true

instance (g : Game) : Decidable (LegalPiece g) := by
  unfold LegalPiece; infer_instance

/-- Row `y` of the board: occupancy and stored colour of its 8 cells, from
column 0 to column 7. -/
def rowOf (g : Game) (y : Nat) : List (Bool × CRGB) :=
  (List.range MATRIX_WIDTH).map fun x => (g.gameBoard x y, g.boardColors x y)

/-- The 8 rows of the board, from row 0 (top) to row 7 (bottom). -/
def rowsOf (g : Game) : List (List (Bool × CRGB)) :=
  (List.range MATRIX_HEIGHT).map (rowOf g)

/-- A row is full when every cell of it is occupied. -/
def rowFull (row : List (Bool × CRGB)) : Bool := row.all fun c => c.1

/-- A completely empty row, as `clearLines` writes it: unoccupied and black. -/
def emptyRow : List (Bool × CRGB) := List.replicate MATRIX_WIDTH (false, BLACK)

/-- The number of full rows of the board. -/
def fullRowCount (g : Game) : Nat := (rowsOf g).countP rowFull

/-- The values of the globals at program start (`boardColors` is
zero-initialised). -/
def initialGlobals : Game where
  gameBoard := fun _ _ => false
  boardColors := fun _ _ => BLACK
  currentPiece := 0
  currentRotation := 0
  currentX := 3
  currentY := 0
  lastFallTime := 0
  gameSpeed := INITIAL_GAME_SPEED
  gameOver := false
  isPaused := false
  score := 0
  level := 1
  leftPressed := false
  rightPressed := false
  rotatePressed := false
  dropPressed := false
  pausePressed := false
  lastButtonCheckTime := 0
  lastPiece := 0

/-- The base score of the line-clear table: 20, 50, 150 and 600 points for
1, 2, 3 and 4 lines. -/
def scoreBase : Nat → Nat
  | 1 => 20
  | 2 => 50
  | 3 => 150
  | 4 => 600
  | _ => 0

/-- A board with two full rows that are not adjacent (rows 5 and 7), a partly
filled row between them (row 6) and one above (row 4), at level 1 with score
0. -/
def splitRowsGame : Game :=
  { initialGlobals with
    gameBoard := fun x y => decide (y = 7 ∨ y = 5 ∨ (y = 6 ∧ x < 3) ∨ (y = 4 ∧ x = 6))
    boardColors := fun _ y => if y = 6 then RED else if y = 4 then BLUE else GREEN }

/-- A board whose four bottom rows are full, at level 3 with score 0. -/
def fourRowsGame : Game :=
  { initialGlobals with
    gameBoard := fun _ y => decide (4 ≤ y)
    level := 3 }

/-- A board with columns 2..5 stacked from the floor up to row 1 and the I
piece lying flat on the stack, in row 0. -/
def stackedGame : Game :=
  { initialGlobals with
    gameBoard := fun x y => decide (2 ≤ x ∧ x ≤ 5 ∧ 1 ≤ y)
    currentX := 2 }

/-- An input sample with the pause button held and a clock that reads 1000
everywhere. -/
def pauseInput : Input where
  left := false
  right := false
  rotate := false
  drop := false
  pause := true
  millis := fun _ => 1000
  newPiece := fun _ => 0

/-- The column of the `i`-th absolute cell of the active piece. -/
def pieceCellX (g : Game) (i : Nat) : Int :=
  g.currentX + shapeX g.currentPiece g.currentRotation i

/-- The row of the `i`-th absolute cell of the active piece. -/
def pieceCellY (g : Game) (i : Nat) : Int :=
  g.currentY + shapeY g.currentPiece g.currentRotation i

/-- The board cell `(x, y)` is one of the four absolute cells of the active
piece. -/
def isPieceCell (g : Game) (x y : Nat) : Prop :=
  ∃ i, i < 4 ∧ (x : Int) = pieceCellX g i ∧ (y : Int) = pieceCellY g i

/-- The `i`-th absolute cell of the active piece is inside the grid and is
the board cell `(x, y)`. -/
def hitsCell (g : Game) (i x y : Nat) : Prop :=
  (0 ≤ pieceCellX g i ∧ pieceCellX g i < 8 ∧ 0 ≤ pieceCellY g i ∧ pieceCellY g i < 8) ∧
    (x : Int) = pieceCellX g i ∧ (y : Int) = pieceCellY g i

/-- The number of occupied cells of the 8 x 8 board. -/
def occupiedCount (g : Game) : Nat :=
  ((Finset.range 8 ×ˢ Finset.range 8).filter (fun p => g.gameBoard p.1 p.2 = true)).card

/-- The state right after setup on an empty board when the first spawn
selects the I piece: rotation 0, row 0. -/
def firstPieceGame : Game := (spawnNewPiece initialGlobals 0).1

/-- The states the game can reach: the state after the spawn of `setup`
on the initial globals, closed under the four moves, the hard drop, the
gravity tick and `resetGame`, and under whole iterations of `loop` (which
compose those operations behind the pause, game-over and debounce tests).
Every spawn selects a kind in 0..6. -/
inductive Reachable : Game → Prop
  | setup (k : Nat) (hk : k < 7) : Reachable (spawnNewPiece initialGlobals k).1
  | left (g : Game) : Reachable g → Reachable (movePieceLeft g).1
  | right (g : Game) : Reachable g → Reachable (movePieceRight g).1
  | down (g : Game) : Reachable g → Reachable (movePieceDown g).1
  | rotate (g : Game) : Reachable g → Reachable (rotatePiece g).1
  | drop (g g' : Game) (fuel k : Nat) (hk : k < 7) :
      Reachable g → hardDrop fuel g k = some g' → Reachable g'
  | gravity (g g' : Game) (fuel : Nat) (inp : Input) :
      Reachable g → gravityTick fuel g inp = some g' → Reachable g'
  | reset (g : Game) (k : Nat) (hk : k < 7) : Reachable g → Reachable (resetGame g k)
  | iteration (g g' : Game) (fuel : Nat) (inp : Input) :
      Reachable g → loop fuel g inp = some g' → Reachable g'

/-- A state about to lock by gravity and clear one line: the right half of
the bottom row is filled, the flat I piece lies in its left half, the score is
490 at level 1. -/
def crossingGame : Game :=
  { initialGlobals with
    gameBoard := fun x y => decide (y = 7 ∧ 4 ≤ x)
    currentX := 0
    currentY := 7
    score := 490 }

/-- A state about to lock by gravity without clearing a line: the flat I
piece lies on the floor of an empty board, the score is 500 at level 1. -/
def restingGame : Game :=
  { initialGlobals with
    currentX := 0
    currentY := 7
    score := 500 }

/-- The cell offsets of rotation state `r` of kind `k`, as integer pairs
(column, row). -/
def stateCells (k r : Nat) : List (Int × Int) :=
  ((tetromino k).shapes.getD r []).map fun c => ((c.1 : Int), (c.2 : Int))

/-- A quarter turn clockwise as seen on the display, where rows grow
downwards: the cell to the right of the centre goes below it. -/
def turnCW (c : Int × Int) : Int × Int := (-c.2, c.1)

/-- A quarter turn counter-clockwise as seen on the display. -/
def turnCCW (c : Int × Int) : Int × Int := (c.2, -c.1)

/-- The least column of a list of cells. -/
def minCol (cells : List (Int × Int)) : Int :=
  cells.foldl (fun m c => min m c.1) (cells.headD (0, 0)).1

/-- The least row of a list of cells. -/
def minRow (cells : List (Int × Int)) : Int :=
  cells.foldl (fun m c => min m c.2) (cells.headD (0, 0)).2

/-- The cells translated so that their least column and least row are 0. -/
def toOrigin (cells : List (Int × Int)) : List (Int × Int) :=
  cells.map fun c => (c.1 - minCol cells, c.2 - minRow cells)

/-- Two lists of cells hold the same set of cells. -/
def sameCells (a b : List (Int × Int)) : Bool :=
  a.all (fun c => b.contains c) && b.all (fun c => a.contains c)

/-- Two cell sets are equal up to translation. -/
def sameShape (a b : List (Int × Int)) : Bool :=
  sameCells (toOrigin a) (toOrigin b)

/-- Every state `(r + 1) mod 4` of kind `k` is state `r` turned by `turn`,
up to translation. -/
def followsCycle (turn : Int × Int → Int × Int) (k : Nat) : Bool :=
  (List.range 4).all fun r =>
    sameShape (stateCells k ((r + 1) % 4)) ((stateCells k r).map turn)

/-- The table of kind `k` encodes the 4-state rotation cycle in one turning
direction. -/
def standardCycle (k : Nat) : Bool :=
  followsCycle turnCW k || followsCycle turnCCW k

/-- The four rotation states of kind `k` are pairwise different
orientations. -/
def distinctOrientations (k : Nat) : Bool :=
  (List.range 4).all fun r => (List.range 4).all fun s =>
    r == s || !sameShape (stateCells k r) (stateCells k s)

/-- The loop `do { newPiece = random(0, 7); } while (newPiece == lastPiece &&
random(0, 100) < 70)` of `spawnNewPiece`. `rnd` is the sequence of raw values
of the random source (`random(0, n)` is the next raw value modulo `n`), `pos`
the number of values consumed so far, `draws` the number of candidate kinds
drawn so far; `fuel` bounds the number of executions of the loop body. The
result is the selected kind and the number of candidates drawn. The second
value is consumed only when the candidate repeats `lastPiece`. -/
def selectPieceLoop : Nat → (Nat → Nat) → Nat → Nat → Nat → Option (Nat × Nat)
  | 0, _, _, _, _ => none
  | fuel + 1, rnd, lastPiece, pos, draws =>
    if rnd pos % 7 = lastPiece ∧ rnd (pos + 1) % 100 < 70 then
      selectPieceLoop fuel rnd lastPiece (pos + 2) (draws + 1)
    else some (rnd pos % 7, draws + 1)

/-- The function `spawnNewPiece` with its selection loop, on a call after
the first (the `static lastPiece` holds the previously selected kind). -/
def spawnNewPieceRandom (fuel : Nat) (g : Game) (rnd : Nat → Nat) : Option (Game × Bool) :=
  match selectPieceLoop fuel rnd g.lastPiece 0 0 with
  | none => none
  | some (newPiece, _) => some (spawnNewPiece g newPiece)

/-- A random source that returns 3, 0, 3, 0, 5 and then 0 for ever. -/
def sampleRandom : Nat → Nat := fun n => [3, 0, 3, 0, 5].getD n 0

/-- This iteration of `loop` runs `resetGame`: after the pause check the game
is not paused, it is over, and some button is pressed. -/
def loopResets (g : Game) (inp : Input) : Bool :=
  !(checkPauseButton g inp).isPaused && (checkPauseButton g inp).gameOver &&
    checkAnyButtonPressed inp

/-- A run of the control loop: one iteration of `loop` per input sample. -/
def runLoop (fuel : Nat) : Game → List Input → Option Game
  | g, [] => some g
  | g, inp :: rest =>
    match loop fuel g inp with
    | none => none
    | some g' => runLoop fuel g' rest

/-- Some iteration of the run runs `resetGame`. -/
def runResets (fuel : Nat) : Game → List Input → Bool
  | _, [] => false
  | g, inp :: rest =>
    loopResets g inp ||
      match loop fuel g inp with
      | none => false
      | some g' => runResets fuel g' rest

/-- A board with column 2 stacked from the floor up to row 1 and the I piece
lying flat in row 0, columns 2..5, held up by the stack. -/
def columnGame : Game :=
  { initialGlobals with
    gameBoard := fun x y => decide (x = 2 ∧ 1 ≤ y)
    currentX := 2 }

/-- An input sample with the hard-drop button held, a clock that reads 1000
everywhere, and spawns that select the Z piece. -/
def dropInput : Input where
  left := false
  right := false
  rotate := false
  drop := true
  pause := false
  millis := fun _ => 1000
  newPiece := fun _ => 4

/-- An input sample with no button held, a clock that reads 1000 everywhere,
and spawns that select the I piece. -/
def tickInput : Input where
  left := false
  right := false
  rotate := false
  drop := false
  pause := false
  millis := fun _ => 1000
  newPiece := fun _ => 0

/-- The stacked board with the score at 500. -/
def stackedGame500 : Game := { stackedGame with score := 500 }

/-- The stacked board after the game is over. -/
def overGame : Game := { stackedGame with gameOver := true }

/-- A state about to lock four lines at once: rows 4..7 are full except for
column 0, and the upright I piece stands in column 0, rows 4..7. -/
def fourLineLockGame : Game :=
  { initialGlobals with
    gameBoard := fun x y => decide (1 ≤ x ∧ 4 ≤ y)
    currentRotation := 1
    currentX := 0
    currentY := 4 }

/-! ## Array accesses

The functions below repeat the control flow of the source functions and
collect, in order, the index pairs at which they touch `gameBoard` (or the
indices at which `updateDisplay` writes `leds`), as the integers the C code
computes. -/

/-- The loop of `isValidPosition` over the cell numbers `cells`, returning
its result together with the index pairs `(x, y)` at which it reads
`gameBoard[x][y]`. The read is the second operand of `y >= 0 && ...`, so it
happens only after both bounds tests passed and when `y >= 0`. -/
def isValidPositionTraced (g : Game) (pieceIndex rotation : Nat) (posX posY : Int) :
    List Nat → Bool × List (Int × Int)
  | [] => (true, [])
  | i :: rest =>
    if posX + shapeX pieceIndex rotation i < 0 ∨
        posX + shapeX pieceIndex rotation i ≥ MATRIX_WIDTH then (false, [])
    else if posY + shapeY pieceIndex rotation i ≥ MATRIX_HEIGHT then (false, [])
    else if posY + shapeY pieceIndex rotation i ≥ 0 then
      if g.gameBoard (posX + shapeX pieceIndex rotation i).toNat
          (posY + shapeY pieceIndex rotation i).toNat = true then
        (false, [(posX + shapeX pieceIndex rotation i, posY + shapeY pieceIndex rotation i)])
      else
        ((isValidPositionTraced g pieceIndex rotation posX posY rest).1,
          (posX + shapeX pieceIndex rotation i, posY + shapeY pieceIndex rotation i) ::
            (isValidPositionTraced g pieceIndex rotation posX posY rest).2)
    else isValidPositionTraced g pieceIndex rotation posX posY rest

/-- The index pairs at which `isValidPosition` reads `gameBoard`. -/
def isValidPositionReads (g : Game) (pieceIndex rotation : Nat) (posX posY : Int) :
    List (Int × Int) :=
  (isValidPositionTraced g pieceIndex rotation posX posY
    (List.range (tetromino pieceIndex).numCells)).2

/-- The index pairs at which `placePiece` writes `gameBoard` and
`boardColors`: the cells that pass its bounds test. -/
def placePieceWrites (g : Game) : List (Int × Int) :=
  (List.range (tetromino g.currentPiece).numCells).filterMap fun i =>
    if pieceCellX g i ≥ 0 ∧ pieceCellX g i < MATRIX_WIDTH ∧
        pieceCellY g i ≥ 0 ∧ pieceCellY g i < MATRIX_HEIGHT then
      some (pieceCellX g i, pieceCellY g i)
    else none

/-- The index pairs read by the scan of row `y` in `clearLines` over the
columns `cols`: the scan stops behind the first unoccupied cell. -/
def fullLineReads (g : Game) (y : Int) : List Nat → List (Int × Int)
  | [] => []
  | x :: rest =>
    ((x : Int), y) :: (if g.gameBoard x y.toNat = true then fullLineReads g y rest else [])

/-- The index pairs `(col, row - 1)` read by the loop
`for (row = y; row > 0; row--)` of `clearLines`, started at `row`. -/
def shiftRowsReads : Nat → List (Int × Int)
  | 0 => []
  | row + 1 =>
    ((List.range MATRIX_WIDTH).map fun (col : Nat) => ((col : Int), ((row + 1 : Nat) : Int) - 1)) ++
      shiftRowsReads row

/-- The index pairs `(col, row)` written by the same loop. -/
def shiftRowsWrites : Nat → List (Int × Int)
  | 0 => []
  | row + 1 =>
    ((List.range MATRIX_WIDTH).map fun (col : Nat) => ((col : Int), ((row + 1 : Nat) : Int))) ++
      shiftRowsWrites row

/-- The index pairs written by the loop that blanks row 0. -/
def clearTopRowWrites : List (Int × Int) :=
  (List.range MATRIX_WIDTH).map fun (col : Nat) => ((col : Int), (0 : Int))

/-- All index pairs at which the sweep of `clearLines` touches the board
arrays, in order; the recursion is that of `clearLinesLoop`. -/
def clearLinesAccesses : Nat → Int → Game → List (Int × Int)
  | fuel, y, g =>
    if y ≥ 0 then
      match fuel with
      | 0 => []
      | fuel + 1 =>
        fullLineReads g y (List.range MATRIX_WIDTH) ++
          (if isFullLine g y.toNat then
            shiftRowsReads y.toNat ++ shiftRowsWrites y.toNat ++ clearTopRowWrites ++
              clearLinesAccesses fuel (y + 1 - 1) (clearTopRow (shiftRowsDown y.toNat g))
          else
            clearLinesAccesses fuel (y - 1) g)
    else []

/-- The function `getPixelIndex`. -/
def getPixelIndex (x y : Int) : Int := y * MATRIX_WIDTH + x

/-- The writes `leds[index] = colour` of `updateDisplay` behind its
`fill_solid`, in order: the occupied board cells, column by column, then the
cells of the active piece that pass the bounds test. -/
def updateDisplayWrites (g : Game) : List (Int × CRGB) :=
  ((List.range MATRIX_WIDTH).map fun (x : Nat) =>
    (List.range MATRIX_HEIGHT).filterMap fun (y : Nat) =>
      if g.gameBoard x y = true then some (getPixelIndex x y, g.boardColors x y) else none).flatten ++
  (List.range (tetromino g.currentPiece).numCells).filterMap fun i =>
    if pieceCellX g i ≥ 0 ∧ pieceCellX g i < MATRIX_WIDTH ∧
        pieceCellY g i ≥ 0 ∧ pieceCellY g i < MATRIX_HEIGHT then
      some (getPixelIndex (pieceCellX g i) (pieceCellY g i), (tetromino g.currentPiece).color)
    else none

/-- The function `updateDisplay`: the array `leds` after `fill_solid` with
black and the writes; a later write to an index wins. -/
def updateDisplay (g : Game) : Int → CRGB :=
  (updateDisplayWrites g).foldl (fun leds w => fun i => if i = w.1 then w.2 else leds i)
    (fun _ => BLACK)

/-- An input sample with no button held, a clock that reads `t` everywhere,
and spawns that select the I piece. -/
def tickAt (t : Nat) : Input where
  left := false
  right := false
  rotate := false
  drop := false
  pause := false
  millis := fun _ => t
  newPiece := fun _ => 0

/-- The state of play seven gravity ticks after the lock in `restingGame`:
the first I piece lies in row 7, columns 0..3, the second has come to rest on
it in row 6, columns 2..5; the score is still 500 and the level is 2. -/
def secondRestGame : Game :=
  { initialGlobals with
    gameBoard := fun x y => decide (y = 7 ∧ x ≤ 3)
    boardColors := fun x y => if y = 7 ∧ x ≤ 3 then CYAN else BLACK
    currentX := 2
    currentY := 6
    score := 500
    level := 2
    lastFallTime := 7000 }

/-! ## Basic facts about the catalog and the validity test -/

theorem numCells_eq_four {k : Nat} (hk : k < 7) : (tetromino k).numCells = 4 := by
  interval_cases k <;> rfl

theorem cellAllowed_iff (g : Game) (x y : Int) :
    cellAllowed g x y = true ↔
      0 ≤ x ∧ x < 8 ∧ y < 8 ∧ (0 ≤ y → g.gameBoard x.toNat y.toNat = false) := by
  unfold cellAllowed
  simp only [MATRIX_WIDTH, MATRIX_HEIGHT, Nat.cast_ofNat, ge_iff_le]
  split_ifs with h1 h2 h3
  · simp only [Bool.false_eq_true, false_iff]; intro h; omega
  · simp only [Bool.false_eq_true, false_iff]; intro h; omega
  · simp only [Bool.false_eq_true, false_iff]
    intro h
    have := h.2.2.2 h3.1
    rw [h3.2] at this
    exact Bool.noConfusion this
  · simp only [true_iff]
    refine ⟨by omega, by omega, by omega, ?_⟩
    intro hy
    by_contra hb
    exact h3 ⟨hy, by simpa using hb⟩

theorem isValidPosition_iff (g : Game) {k : Nat} (hk : k < 7) (r : Nat) (posX posY : Int) :
    isValidPosition g k r posX posY = true ↔
      ∀ i, i < 4 → cellAllowed g (posX + shapeX k r i) (posY + shapeY k r i) = true := by
  unfold isValidPosition
  rw [numCells_eq_four hk, List.all_eq_true]
  simp only [List.mem_range]

/-! ## C1: the validity test -/

/-- C1: for a kind in 0..6 and a rotation in 0..3, `isValidPosition` returns
false exactly when one of the four absolute cells is outside the horizontal
bounds, or at or below the floor, or has a non-negative row and lies on an
occupied board cell. A cell above the grid with a column out of bounds makes
the test fail, and a position whose cells are all within the horizontal bounds
and above the floor is accepted whenever those of its cells that have a
non-negative row are free, whatever the board holds. -/
theorem C1_isValidPosition_false_iff (g : Game) (k r : Nat) (hk : k < 7) (hr : r < 4)
    (posX posY : Int) :
    (isValidPosition g k r posX posY = false ↔
      ∃ i, i < 4 ∧
        ((posX + shapeX k r i < 0 ∨ posX + shapeX k r i ≥ 8) ∨
          posY + shapeY k r i ≥ 8 ∨
          (posY + shapeY k r i ≥ 0 ∧
            occupiedAt g (posX + shapeX k r i) (posY + shapeY k r i)))) ∧
    (∀ i, i < 4 → posY + shapeY k r i < 0 →
      (posX + shapeX k r i < 0 ∨ posX + shapeX k r i ≥ 8) →
      isValidPosition g k r posX posY = false) ∧
    ((∀ i, i < 4 → 0 ≤ posX + shapeX k r i ∧ posX + shapeX k r i < 8 ∧
        posY + shapeY k r i < 8 ∧
        (posY + shapeY k r i < 0 ∨
          ¬ occupiedAt g (posX + shapeX k r i) (posY + shapeY k r i))) →
      isValidPosition g k r posX posY = true) := by
  have _hr := hr
  have key : isValidPosition g k r posX posY = false ↔
      ∃ i, i < 4 ∧
        ((posX + shapeX k r i < 0 ∨ posX + shapeX k r i ≥ 8) ∨
          posY + shapeY k r i ≥ 8 ∨
          (posY + shapeY k r i ≥ 0 ∧
            occupiedAt g (posX + shapeX k r i) (posY + shapeY k r i))) := by
    rw [← Bool.not_eq_true, isValidPosition_iff g hk]
    constructor
    · intro h
      push_neg at h
      obtain ⟨i, hi, hc⟩ := h
      refine ⟨i, hi, ?_⟩
      rw [Ne, cellAllowed_iff] at hc
      by_contra hn
      push_neg at hn
      apply hc
      refine ⟨by omega, by omega, by omega, ?_⟩
      intro hy
      have h3 := hn.2.2 hy
      unfold occupiedAt at h3
      by_contra hb
      exact h3 ⟨by omega, by omega, hy, by omega, by simpa using hb⟩
    · rintro ⟨i, hi, hc⟩ hall
      have h := (cellAllowed_iff g _ _).1 (hall i hi)
      rcases hc with hc | hc | ⟨hy, hocc⟩
      · omega
      · omega
      · have := h.2.2.2 hy
        rw [hocc.2.2.2.2] at this
        exact Bool.noConfusion this
  refine ⟨key, ?_, ?_⟩
  · intro i hi _ hx
    exact key.2 ⟨i, hi, Or.inl hx⟩
  · intro h
    by_contra hv
    rw [Bool.not_eq_true] at hv
    obtain ⟨i, hi, hc⟩ := key.1 hv
    have hi4 := h i hi
    rcases hc with hc | hc | ⟨hy, hocc⟩
    · omega
    · omega
    · rcases hi4.2.2.2 with h4 | h4
      · omega
      · exact h4 hocc

/-- C1, witness: the T piece in rotation 1 one column left of the grid. -/
theorem C1_isValidPosition_false_iff_witness :
    (2 < 7 ∧ 1 < 4) ∧
    (isValidPosition initialGlobals 2 1 (-1) (-1) = false ↔
      ∃ i, i < 4 ∧
        (((-1 : Int) + shapeX 2 1 i < 0 ∨ (-1 : Int) + shapeX 2 1 i ≥ 8) ∨
          (-1 : Int) + shapeY 2 1 i ≥ 8 ∨
          ((-1 : Int) + shapeY 2 1 i ≥ 0 ∧
            occupiedAt initialGlobals ((-1 : Int) + shapeX 2 1 i) ((-1 : Int) + shapeY 2 1 i)))) :=
  ⟨⟨by decide, by decide⟩,
    (C1_isValidPosition_false_iff initialGlobals 2 1 (by decide) (by decide) (-1) (-1)).1⟩

/-! ## Closed forms of the row-shifting loops -/

theorem copyRow_foldl (row : Nat) (hrow : 1 ≤ row) (cols : List Nat) (g : Game) :
    cols.foldl
      (fun g col =>
        { g with
          gameBoard := setAt g.gameBoard col row (g.gameBoard col (row - 1))
          boardColors := setAt g.boardColors col row (g.boardColors col (row - 1)) })
      g =
    { g with
      gameBoard := fun x y => if x ∈ cols ∧ y = row then g.gameBoard x (row - 1) else g.gameBoard x y
      boardColors := fun x y =>
        if x ∈ cols ∧ y = row then g.boardColors x (row - 1) else g.boardColors x y } := by
  induction cols generalizing g with
  | nil => simp
  | cons c cs ih =>
    rw [List.foldl_cons, ih]
    have hne : row - 1 ≠ row := by omega
    congr 1
    · funext x y
      simp only [setAt, List.mem_cons]
      by_cases hy : y = row
      · subst hy
        by_cases hx : x = c
        · subst hx; simp [hne]
        · simp [hx, hne]
      · simp [hy]
    · funext x y
      simp only [setAt, List.mem_cons]
      by_cases hy : y = row
      · subst hy
        by_cases hx : x = c
        · subst hx; simp [hne]
        · simp [hx, hne]
      · simp [hy]

theorem copyRowDown_eq (g : Game) (row : Nat) (hrow : 1 ≤ row) :
    copyRowDown g row =
    { g with
      gameBoard := fun x y => if x < 8 ∧ y = row then g.gameBoard x (row - 1) else g.gameBoard x y
      boardColors := fun x y =>
        if x < 8 ∧ y = row then g.boardColors x (row - 1) else g.boardColors x y } := by
  unfold copyRowDown
  rw [copyRow_foldl row hrow]
  simp only [MATRIX_WIDTH, List.mem_range]

theorem shiftRowsDown_eq (y : Nat) (g : Game) :
    shiftRowsDown y g =
    { g with
      gameBoard := fun x r =>
        if x < 8 ∧ 1 ≤ r ∧ r ≤ y then g.gameBoard x (r - 1) else g.gameBoard x r
      boardColors := fun x r =>
        if x < 8 ∧ 1 ≤ r ∧ r ≤ y then g.boardColors x (r - 1) else g.boardColors x r } := by
  induction y generalizing g with
  | zero =>
    simp only [shiftRowsDown]
    have h0 : ∀ x r : Nat, ¬ (x < 8 ∧ 1 ≤ r ∧ r ≤ 0) := by intro x r; omega
    simp only [h0, if_false]
  | succ n ih =>
    rw [shiftRowsDown, ih, copyRowDown_eq _ _ (by omega)]
    congr 1
    · funext x r
      simp only [Nat.add_sub_cancel]
      by_cases hx : x < 8
      · by_cases h1 : r = n + 1
        · subst h1
          have : ¬ (n + 1 ≤ n) := by omega
          simp [hx, this]
        · by_cases h2 : 1 ≤ r ∧ r ≤ n
          · have h3 : ¬ (r - 1 = n + 1) := by omega
            have h4 : 1 ≤ r ∧ r ≤ n + 1 := by omega
            simp [hx, h2, h3, h4]
          · have h4 : ¬ (1 ≤ r ∧ r ≤ n + 1) := by omega
            simp [hx, h1, h2, h4]
      · simp [hx]
    · funext x r
      simp only [Nat.add_sub_cancel]
      by_cases hx : x < 8
      · by_cases h1 : r = n + 1
        · subst h1
          have : ¬ (n + 1 ≤ n) := by omega
          simp [hx, this]
        · by_cases h2 : 1 ≤ r ∧ r ≤ n
          · have h3 : ¬ (r - 1 = n + 1) := by omega
            have h4 : 1 ≤ r ∧ r ≤ n + 1 := by omega
            simp [hx, h2, h3, h4]
          · have h4 : ¬ (1 ≤ r ∧ r ≤ n + 1) := by omega
            simp [hx, h1, h2, h4]
      · simp [hx]

theorem clearTop_foldl (cols : List Nat) (g : Game) :
    cols.foldl
      (fun g col =>
        { g with
          gameBoard := setAt g.gameBoard col 0 false
          boardColors := setAt g.boardColors col 0 BLACK })
      g =
    { g with
      gameBoard := fun x y => if x ∈ cols ∧ y = 0 then false else g.gameBoard x y
      boardColors := fun x y => if x ∈ cols ∧ y = 0 then BLACK else g.boardColors x y } := by
  induction cols generalizing g with
  | nil => simp
  | cons c cs ih =>
    rw [List.foldl_cons, ih]
    congr 1
    · funext x y
      simp only [setAt, List.mem_cons]
      by_cases hy : y = 0
      · subst hy
        by_cases hx : x = c
        · subst hx; simp
        · simp [hx]
      · simp [hy]
    · funext x y
      simp only [setAt, List.mem_cons]
      by_cases hy : y = 0
      · subst hy
        by_cases hx : x = c
        · subst hx; simp
        · simp [hx]
      · simp [hy]

theorem clearTopRow_eq (g : Game) :
    clearTopRow g =
    { g with
      gameBoard := fun x y => if x < 8 ∧ y = 0 then false else g.gameBoard x y
      boardColors := fun x y => if x < 8 ∧ y = 0 then BLACK else g.boardColors x y } := by
  unfold clearTopRow
  rw [clearTop_foldl]
  simp only [MATRIX_WIDTH, List.mem_range]

/-! ## The board as a list of rows -/

theorem range_eight : List.range 8 = [0, 1, 2, 3, 4, 5, 6, 7] := by decide

theorem rowsOf_length (g : Game) : (rowsOf g).length = 8 := by
  simp [rowsOf]

theorem rowsOf_getElem (g : Game) (y : Nat) (hy : y < (rowsOf g).length) :
    (rowsOf g)[y] = rowOf g y := by
  simp [rowsOf]

theorem isFullLine_eq_rowFull (g : Game) (y : Nat) : isFullLine g y = rowFull (rowOf g y) := by
  simp only [isFullLine, rowFull, rowOf, List.all_map]
  rfl

theorem emptyRow_not_full : rowFull emptyRow = false := by decide

theorem rowOf_clear (g : Game) (y r : Nat) :
    rowOf (clearTopRow (shiftRowsDown y g)) r =
      if r = 0 then emptyRow else if r ≤ y then rowOf g (r - 1) else rowOf g r := by
  rw [clearTopRow_eq, shiftRowsDown_eq]
  unfold rowOf
  by_cases h0 : r = 0
  · subst h0
    simp only [if_true]
    rw [show emptyRow = (List.range MATRIX_WIDTH).map (fun _ => (false, BLACK)) by decide]
    apply List.map_congr_left
    intro x hx
    have hx8 : x < 8 := by simpa [MATRIX_WIDTH] using hx
    simp [hx8]
  · simp only [h0, if_false]
    by_cases h1 : r ≤ y
    · simp only [h1, if_true]
      apply List.map_congr_left
      intro x hx
      have hx8 : x < 8 := by simpa [MATRIX_WIDTH] using hx
      have h2 : 1 ≤ r := by omega
      simp [hx8, h0, h1, h2]
    · simp only [h1, if_false]
      apply List.map_congr_left
      intro x hx
      simp [h0, h1]

theorem rowsOf_clear (g : Game) (y : Nat) (hy : y < 8) :
    rowsOf (clearTopRow (shiftRowsDown y g)) = emptyRow :: (rowsOf g).eraseIdx y := by
  unfold rowsOf
  simp only [MATRIX_HEIGHT, range_eight, List.map_cons, List.map_nil, rowOf_clear]
  interval_cases y <;> simp [List.eraseIdx]

theorem clear_other_fields (g : Game) (y : Nat) :
    clearTopRow (shiftRowsDown y g) =
      { g with
        gameBoard := (clearTopRow (shiftRowsDown y g)).gameBoard
        boardColors := (clearTopRow (shiftRowsDown y g)).boardColors } := by
  rw [clearTopRow_eq, shiftRowsDown_eq]

/-! ## List facts used by the sweep -/

theorem take_succ_cons_eraseIdx {α : Type} (L : List α) (e : α) (m : Nat) (hm : m < L.length) :
    (e :: L.eraseIdx m).take (m + 1) = e :: L.take m := by
  rw [List.take_succ_cons, List.eraseIdx_eq_take_drop_succ]
  rw [List.take_left' (by rw [List.length_take]; omega)]

theorem drop_succ_cons_eraseIdx {α : Type} (L : List α) (e : α) (m : Nat) (hm : m < L.length) :
    (e :: L.eraseIdx m).drop (m + 1) = L.drop (m + 1) := by
  rw [List.drop_succ_cons, List.eraseIdx_eq_take_drop_succ]
  rw [List.drop_left' (by rw [List.length_take]; omega)]

theorem take_succ_getElem {α : Type} (L : List α) (m : Nat) (hm : m < L.length) :
    L.take (m + 1) = L.take m ++ [L[m]] := by
  rw [List.take_succ, List.getElem?_eq_getElem hm]
  rfl
/-! ## The sweep of `clearLines` -/

theorem clearLinesLoop_done (fuel : Nat) (y : Int) (hy : y < 0) (g : Game) (c : Nat) :
    clearLinesLoop fuel y g c = some (g, c) := by
  unfold clearLinesLoop
  have : ¬ (y ≥ 0) := by omega
  simp [this]

theorem clearLinesLoop_full (fuel m : Nat) (g : Game) (c : Nat)
    (hfull : isFullLine g m = true) :
    clearLinesLoop (fuel + 1) (m : Int) g c =
      clearLinesLoop fuel (m : Int) (clearTopRow (shiftRowsDown m g)) (c + 1) := by
  rw [clearLinesLoop]
  have h0 : (m : Int) ≥ 0 := by omega
  simp only [h0, if_true, Int.toNat_ofNat, hfull, Int.add_sub_cancel]

theorem clearLinesLoop_notFull (fuel m : Nat) (g : Game) (c : Nat)
    (hfull : isFullLine g m = false) :
    clearLinesLoop (fuel + 1) (m : Int) g c = clearLinesLoop fuel ((m : Int) - 1) g c := by
  rw [clearLinesLoop]
  have h0 : (m : Int) ≥ 0 := by omega
  simp only [h0, if_true, Int.toNat_ofNat, hfull]
  rfl

theorem clearLinesLoop_noFuel (m : Nat) (g : Game) (c : Nat) :
    clearLinesLoop 0 (m : Int) g c = none := by
  rw [clearLinesLoop]
  have h0 : (m : Int) ≥ 0 := by omega
  simp only [h0, if_true]

/-- The sweep started at row `m - 1` with enough fuel returns; it clears as
many rows as there are full rows among rows `0 .. m - 1`, leaves the rows from
`m` on as they are, and turns rows `0 .. m - 1` into empty rows followed by
the non-full ones in their order. -/
theorem clearLinesLoop_spec (fuel : Nat) :
    ∀ (m : Nat) (g : Game) (c : Nat), m ≤ 8 →
      m + ((rowsOf g).take m).countP rowFull ≤ fuel →
      ∃ g', clearLinesLoop fuel ((m : Int) - 1) g c =
          some (g', c + ((rowsOf g).take m).countP rowFull) ∧
        rowsOf g' =
          List.replicate (((rowsOf g).take m).countP rowFull) emptyRow ++
            ((rowsOf g).take m).filter (fun r => !rowFull r) ++ (rowsOf g).drop m ∧
        g' = { g with gameBoard := g'.gameBoard, boardColors := g'.boardColors } := by
  induction fuel with
  | zero =>
    intro m g c _ hf
    have hm0 : m = 0 := by omega
    subst hm0
    refine ⟨g, ?_, ?_, rfl⟩
    · rw [clearLinesLoop_done _ _ (by omega)]; simp
    · simp
  | succ f ih =>
    intro m g c hm hf
    cases m with
    | zero =>
      refine ⟨g, ?_, ?_, rfl⟩
      · rw [clearLinesLoop_done _ _ (by omega)]; simp
      · simp
    | succ n =>
      have hn : n < (rowsOf g).length := by rw [rowsOf_length]; omega
      have hcast : ((n + 1 : Nat) : Int) - 1 = (n : Int) := by omega
      rw [hcast]
      have htake := take_succ_getElem (rowsOf g) n hn
      rw [rowsOf_getElem] at htake
      cases hfull : isFullLine g n with
      | true =>
        have hrf : rowFull (rowOf g n) = true := by rw [← isFullLine_eq_rowFull]; exact hfull
        rw [clearLinesLoop_full _ _ _ _ hfull]
        have hrows := rowsOf_clear g n (by omega)
        have hk : ((rowsOf g).take (n + 1)).countP rowFull =
            ((rowsOf g).take n).countP rowFull + 1 := by
          rw [htake, List.countP_append]; simp [hrf]
        have hk1 : ((rowsOf (clearTopRow (shiftRowsDown n g))).take (n + 1)).countP rowFull =
            ((rowsOf g).take n).countP rowFull := by
          rw [hrows, take_succ_cons_eraseIdx _ _ _ hn, List.countP_cons, emptyRow_not_full]
          simp
        obtain ⟨g', h1, h2, h3⟩ := ih (n + 1) (clearTopRow (shiftRowsDown n g)) (c + 1) hm
          (by rw [hk1]; rw [hk] at hf; omega)
        have hcast2 : ((n + 1 : Nat) : Int) - 1 = (n : Int) := by omega
        rw [hcast2] at h1
        refine ⟨g', ?_, ?_, ?_⟩
        · rw [h1, hk1, hk]
          congr 2
          omega
        · rw [h2, hk1, hk, hrows, take_succ_cons_eraseIdx _ _ _ hn,
            drop_succ_cons_eraseIdx _ _ _ hn, htake]
          simp [hrf, emptyRow_not_full, List.replicate_succ']
        · rw [h3]
          rw [clear_other_fields g n]
      | false =>
        have hrf : rowFull (rowOf g n) = false := by rw [← isFullLine_eq_rowFull]; exact hfull
        rw [clearLinesLoop_notFull _ _ _ _ hfull]
        have hk : ((rowsOf g).take (n + 1)).countP rowFull =
            ((rowsOf g).take n).countP rowFull := by
          rw [htake, List.countP_append]; simp [hrf]
        obtain ⟨g', h1, h2, h3⟩ := ih n g c (by omega) (by rw [hk] at hf; omega)
        refine ⟨g', ?_, ?_, h3⟩
        · rw [h1, hk]
        · rw [h2, hk, htake, List.drop_eq_getElem_cons hn, rowsOf_getElem]
          simp [hrf]

theorem fullRowCount_le (g : Game) : fullRowCount g ≤ 8 := by
  unfold fullRowCount
  have := List.countP_le_length rowFull (l := rowsOf g)
  rw [rowsOf_length] at this
  exact this

/-- With fuel for `8 + k` passes, `k` the number of full rows, the sweep of
`clearLines` returns with `linesCleared = k` and the compacted board. -/
theorem clearLinesLoop_full_sweep (fuel : Nat) (g : Game) (hf : 8 + fullRowCount g ≤ fuel) :
    ∃ g', clearLinesLoop fuel ((MATRIX_HEIGHT : Int) - 1) g 0 = some (g', fullRowCount g) ∧
      rowsOf g' =
        List.replicate (fullRowCount g) emptyRow ++ (rowsOf g).filter (fun r => !rowFull r) ∧
      g' = { g with gameBoard := g'.gameBoard, boardColors := g'.boardColors } := by
  have htk : (rowsOf g).take 8 = rowsOf g := List.take_of_length_le (by rw [rowsOf_length])
  have hdr : (rowsOf g).drop 8 = [] := List.drop_of_length_le (by rw [rowsOf_length])
  obtain ⟨g', h1, h2, h3⟩ := clearLinesLoop_spec fuel 8 g 0 (le_refl _)
    (by rw [htk]; exact hf)
  rw [htk] at h1 h2
  rw [hdr] at h2
  refine ⟨g', ?_, ?_, h3⟩
  · simpa [fullRowCount] using h1
  · simpa [fullRowCount] using h2

/-- The function `clearLines` with fuel for `8 + k` passes, `k` the number of
full rows: it returns, compacts the board, adds the points for `k` lines once
and touches nothing else. -/
theorem clearLines_spec (fuel : Nat) (g : Game) (hf : 8 + fullRowCount g ≤ fuel) :
    ∃ g', clearLines fuel g = some g' ∧
      rowsOf g' =
        List.replicate (fullRowCount g) emptyRow ++ (rowsOf g).filter (fun r => !rowFull r) ∧
      g' = { g with
        gameBoard := g'.gameBoard
        boardColors := g'.boardColors
        score := if 0 < fullRowCount g then
            uadd32 g.score (linePoints (fullRowCount g) g.level)
          else g.score } := by
  obtain ⟨g1, h1, h2, h3⟩ := clearLinesLoop_full_sweep fuel g hf
  have e := Game.ext_iff.1 h3
  simp only [true_and] at e
  unfold clearLines
  rw [h1]
  by_cases hk : 0 < fullRowCount g
  · refine ⟨{ g1 with score := uadd32 g1.score (linePoints (fullRowCount g) g1.level) },
      by simp only [gt_iff_lt, hk, if_true], h2, ?_⟩
    apply Game.ext <;> simp [e, hk]
  · refine ⟨g1, by simp only [gt_iff_lt, hk, if_false], h2, ?_⟩
    apply Game.ext <;> simp [e, hk]

/-! ## C2: compaction -/

/-- C2: for every board with `k` full rows, `clearLines` (given fuel for its
`8 + k` passes) returns a board whose rows are `k` completely empty rows
followed by exactly the non-full rows of the input in their original order,
occupancy and colours included; rows `0 .. k - 1` are empty, and row 0 is empty
whenever a row was cleared. -/
theorem C2_clearLines_compacts (fuel : Nat) (g : Game) (hf : 8 + fullRowCount g ≤ fuel) :
    ∃ g', clearLines fuel g = some g' ∧
      rowsOf g' =
        List.replicate (fullRowCount g) emptyRow ++ (rowsOf g).filter (fun r => !rowFull r) ∧
      (∀ y, y < fullRowCount g → rowOf g' y = emptyRow) ∧
      (1 ≤ fullRowCount g → rowOf g' 0 = emptyRow) := by
  obtain ⟨g', h1, h2, _⟩ := clearLines_spec fuel g hf
  have hrows : ∀ y, y < fullRowCount g → rowOf g' y = emptyRow := by
    intro y hy
    have hy8 : y < (rowsOf g').length := by
      rw [rowsOf_length]; have := fullRowCount_le g; omega
    rw [← rowsOf_getElem g' y hy8]
    simp only [h2]
    rw [List.getElem_append_left (by simpa using hy)]
    simp
  exact ⟨g', h1, h2, hrows, fun hk => hrows 0 (by omega)⟩

/-- C2, witness: a board with the non-adjacent full rows 5 and 7. -/
theorem C2_clearLines_compacts_witness :
    8 + fullRowCount splitRowsGame ≤ 16 ∧
    ∃ g', clearLines 16 splitRowsGame = some g' ∧
      rowsOf g' =
        List.replicate (fullRowCount splitRowsGame) emptyRow ++
          (rowsOf splitRowsGame).filter (fun r => !rowFull r) ∧
      (∀ y, y < fullRowCount splitRowsGame → rowOf g' y = emptyRow) ∧
      (1 ≤ fullRowCount splitRowsGame → rowOf g' 0 = emptyRow) :=
  ⟨by decide, C2_clearLines_compacts 16 splitRowsGame (by decide)⟩

/-! ## C3: line-clear scoring -/

theorem linePoints_eq (k level : Nat) : linePoints k level = (scoreBase k * level) % U32 := by
  unfold linePoints scoreBase umul32
  split <;> simp

/-- C3: `clearLines` (given fuel for its `8 + n` passes) counts `n`, the
number of full rows of the board before the call, and changes the score once,
to `(score + base(n) * level) mod 2^32` with base 20, 50, 150, 600 for 1, 2, 3,
4 lines; with `n = 0` the score is unchanged; the level is never changed. Two
lines at level 1 add exactly 50 and four lines at level 3 exactly 1800 (when
the sum stays below 2^32). -/
theorem C3_clearLines_score (fuel : Nat) (g : Game) (hf : 8 + fullRowCount g ≤ fuel) :
    ∃ g1 g', clearLinesLoop fuel ((MATRIX_HEIGHT : Int) - 1) g 0 = some (g1, fullRowCount g) ∧
      clearLines fuel g = some g' ∧
      g'.level = g.level ∧
      (fullRowCount g = 0 → g'.score = g.score) ∧
      (1 ≤ fullRowCount g → fullRowCount g ≤ 4 →
        g'.score = (g.score + scoreBase (fullRowCount g) * g.level) % U32) ∧
      (scoreBase 1 = 20 ∧ scoreBase 2 = 50 ∧ scoreBase 3 = 150 ∧ scoreBase 4 = 600) ∧
      (fullRowCount g = 2 → g.level = 1 → g.score + 50 < U32 → g'.score = g.score + 50) ∧
      (fullRowCount g = 4 → g.level = 3 → g.score + 1800 < U32 →
        g'.score = g.score + 1800) := by
  obtain ⟨g1, hloop, _, _⟩ := clearLinesLoop_full_sweep fuel g hf
  obtain ⟨g', h1, _, h3⟩ := clearLines_spec fuel g hf
  have hscore : g'.score = if 0 < fullRowCount g then
      uadd32 g.score (linePoints (fullRowCount g) g.level) else g.score := by
    rw [h3]
  have hlevel : g'.level = g.level := by rw [h3]
  have hgen : 1 ≤ fullRowCount g →
      g'.score = (g.score + scoreBase (fullRowCount g) * g.level) % U32 := by
    intro hk
    have hk0 : 0 < fullRowCount g := by omega
    rw [hscore, if_pos hk0, linePoints_eq]
    unfold uadd32
    rw [Nat.add_mod_mod]
  refine ⟨g1, g', hloop, h1, hlevel, ?_, fun hk _ => hgen hk, ⟨rfl, rfl, rfl, rfl⟩, ?_, ?_⟩
  · intro hk
    rw [hscore, hk]
    simp
  · intro hk hl hs
    rw [hgen (by omega), hk, hl]
    simp only [scoreBase]
    exact Nat.mod_eq_of_lt (by omega)
  · intro hk hl hs
    rw [hgen (by omega), hk, hl]
    simp only [scoreBase]
    exact Nat.mod_eq_of_lt (by omega)

/-- C3, witness: four full rows at level 3. -/
theorem C3_clearLines_score_witness :
    8 + fullRowCount fourRowsGame ≤ 16 ∧
    ∃ g1 g', clearLinesLoop 16 ((MATRIX_HEIGHT : Int) - 1) fourRowsGame 0 =
        some (g1, fullRowCount fourRowsGame) ∧
      clearLines 16 fourRowsGame = some g' ∧
      g'.level = fourRowsGame.level ∧
      (fullRowCount fourRowsGame = 0 → g'.score = fourRowsGame.score) ∧
      (1 ≤ fullRowCount fourRowsGame → fullRowCount fourRowsGame ≤ 4 →
        g'.score =
          (fourRowsGame.score + scoreBase (fullRowCount fourRowsGame) * fourRowsGame.level) %
            U32) ∧
      (scoreBase 1 = 20 ∧ scoreBase 2 = 50 ∧ scoreBase 3 = 150 ∧ scoreBase 4 = 600) ∧
      (fullRowCount fourRowsGame = 2 → fourRowsGame.level = 1 →
        fourRowsGame.score + 50 < U32 → g'.score = fourRowsGame.score + 50) ∧
      (fullRowCount fourRowsGame = 4 → fourRowsGame.level = 3 →
        fourRowsGame.score + 1800 < U32 → g'.score = fourRowsGame.score + 1800) :=
  ⟨by decide, C3_clearLines_score 16 fourRowsGame (by decide)⟩

set_option maxRecDepth 100000 in
/-- The two sample clears of the scoring table, evaluated: two lines at level
1 take the score from 0 to 50, four lines at level 3 from 0 to 1800; and the
board with the non-adjacent full rows 5 and 7 ends with old row 6 in row 7, old
row 4 in row 6, and nothing above. -/
theorem clearLines_examples :
    (clearLines 16 splitRowsGame).map (fun g => g.score) = some 50 ∧
    (clearLines 16 fourRowsGame).map (fun g => g.score) = some 1800 ∧
    (clearLines 16 splitRowsGame).map
      (fun g => (List.range 8).map fun y => (List.range 8).filter fun x => g.gameBoard x y) =
      some [[], [], [], [], [], [], [6], [0, 1, 2]] := by
  decide

/-! ## C4: rotation with wall kicks -/

/-- C4: `rotatePiece` tries the next rotation at `x`, then at `x - 1`, then at
`x + 1`, and commits the first candidate that `isValidPosition` accepts,
returning true; when none is accepted it returns false and the state is
unchanged. The piece kind, `currentY`, the board and the score never change. -/
theorem C4_rotatePiece (g : Game) :
    (isValidPosition g g.currentPiece ((g.currentRotation + 1) % 4) g.currentX g.currentY = true →
      rotatePiece g = ({ g with currentRotation := (g.currentRotation + 1) % 4 }, true)) ∧
    (isValidPosition g g.currentPiece ((g.currentRotation + 1) % 4) g.currentX g.currentY = false →
      isValidPosition g g.currentPiece ((g.currentRotation + 1) % 4) (g.currentX - 1) g.currentY
        = true →
      rotatePiece g =
        ({ g with currentX := g.currentX - 1, currentRotation := (g.currentRotation + 1) % 4 },
          true)) ∧
    (isValidPosition g g.currentPiece ((g.currentRotation + 1) % 4) g.currentX g.currentY = false →
      isValidPosition g g.currentPiece ((g.currentRotation + 1) % 4) (g.currentX - 1) g.currentY
        = false →
      isValidPosition g g.currentPiece ((g.currentRotation + 1) % 4) (g.currentX + 1) g.currentY
        = true →
      rotatePiece g =
        ({ g with currentX := g.currentX + 1, currentRotation := (g.currentRotation + 1) % 4 },
          true)) ∧
    (isValidPosition g g.currentPiece ((g.currentRotation + 1) % 4) g.currentX g.currentY = false →
      isValidPosition g g.currentPiece ((g.currentRotation + 1) % 4) (g.currentX - 1) g.currentY
        = false →
      isValidPosition g g.currentPiece ((g.currentRotation + 1) % 4) (g.currentX + 1) g.currentY
        = false →
      rotatePiece g = (g, false)) ∧
    ((rotatePiece g).1.currentPiece = g.currentPiece ∧
      (rotatePiece g).1.currentY = g.currentY ∧
      (rotatePiece g).1.gameBoard = g.gameBoard ∧
      (rotatePiece g).1.boardColors = g.boardColors ∧
      (rotatePiece g).1.score = g.score) := by
  refine ⟨?_, ?_, ?_, ?_, ?_⟩
  · intro h0
    simp only [rotatePiece, h0, if_true]
  · intro h0 h1
    simp [rotatePiece, h0, h1]
  · intro h0 h1 h2
    simp [rotatePiece, h0, h1, h2]
  · intro h0 h1 h2
    simp [rotatePiece, h0, h1, h2]
  · unfold rotatePiece
    simp only []
    split_ifs <;> exact ⟨rfl, rfl, rfl, rfl, rfl⟩

/-! ## C10: pause -/

/-- C10: an iteration of `loop` in which `isPaused` holds after
`checkPauseButton` returns, with the board, the active piece, score, level,
gravity interval, `gameOver` and `lastFallTime` as they were; and
`checkPauseButton` itself never changes any of them, so the iteration that
unpauses starts from the same active piece. -/
theorem C10_paused_iteration_frame (fuel : Nat) (g : Game) (inp : Input)
    (hp : (checkPauseButton g inp).isPaused = true) :
    (∃ g', loop fuel g inp = some g' ∧
      g'.isPaused = true ∧
      g'.gameBoard = g.gameBoard ∧ g'.boardColors = g.boardColors ∧
      g'.currentPiece = g.currentPiece ∧ g'.currentRotation = g.currentRotation ∧
      g'.currentX = g.currentX ∧ g'.currentY = g.currentY ∧
      g'.score = g.score ∧ g'.level = g.level ∧ g'.gameSpeed = g.gameSpeed ∧
      g'.gameOver = g.gameOver ∧ g'.lastFallTime = g.lastFallTime) ∧
    ((checkPauseButton g inp).gameBoard = g.gameBoard ∧
      (checkPauseButton g inp).boardColors = g.boardColors ∧
      (checkPauseButton g inp).currentPiece = g.currentPiece ∧
      (checkPauseButton g inp).currentRotation = g.currentRotation ∧
      (checkPauseButton g inp).currentX = g.currentX ∧
      (checkPauseButton g inp).currentY = g.currentY ∧
      (checkPauseButton g inp).score = g.score ∧
      (checkPauseButton g inp).level = g.level ∧
      (checkPauseButton g inp).gameSpeed = g.gameSpeed ∧
      (checkPauseButton g inp).gameOver = g.gameOver ∧
      (checkPauseButton g inp).lastFallTime = g.lastFallTime) := by
  have hframe : (checkPauseButton g inp).gameBoard = g.gameBoard ∧
      (checkPauseButton g inp).boardColors = g.boardColors ∧
      (checkPauseButton g inp).currentPiece = g.currentPiece ∧
      (checkPauseButton g inp).currentRotation = g.currentRotation ∧
      (checkPauseButton g inp).currentX = g.currentX ∧
      (checkPauseButton g inp).currentY = g.currentY ∧
      (checkPauseButton g inp).score = g.score ∧
      (checkPauseButton g inp).level = g.level ∧
      (checkPauseButton g inp).gameSpeed = g.gameSpeed ∧
      (checkPauseButton g inp).gameOver = g.gameOver ∧
      (checkPauseButton g inp).lastFallTime = g.lastFallTime := by
    unfold checkPauseButton
    simp only []
    split_ifs <;> exact ⟨rfl, rfl, rfl, rfl, rfl, rfl, rfl, rfl, rfl, rfl, rfl⟩
  refine ⟨⟨checkPauseButton g inp, ?_, hp, hframe⟩, hframe⟩
  unfold loop
  simp only [hp, if_true]

/-- C10, witness: the pause button is pressed while a piece is falling. -/
theorem C10_paused_iteration_frame_witness :
    (checkPauseButton initialGlobals pauseInput).isPaused = true ∧
    ∃ g', loop 16 initialGlobals pauseInput = some g' ∧
      g'.isPaused = true ∧
      g'.gameBoard = initialGlobals.gameBoard ∧ g'.boardColors = initialGlobals.boardColors ∧
      g'.currentPiece = initialGlobals.currentPiece ∧
      g'.currentRotation = initialGlobals.currentRotation ∧
      g'.currentX = initialGlobals.currentX ∧ g'.currentY = initialGlobals.currentY ∧
      g'.score = initialGlobals.score ∧ g'.level = initialGlobals.level ∧
      g'.gameSpeed = initialGlobals.gameSpeed ∧
      g'.gameOver = initialGlobals.gameOver ∧
      g'.lastFallTime = initialGlobals.lastFallTime :=
  ⟨by decide, (C10_paused_iteration_frame 16 initialGlobals pauseInput (by decide)).1⟩

/-! ## Spawning -/

theorem spawnNewPiece_fst (g : Game) (k : Nat) :
    (spawnNewPiece g k).1 =
      { g with
        lastPiece := k
        currentPiece := k
        currentRotation := 0
        currentX := Int.tdiv ((MATRIX_WIDTH : Int) - getPieceWidth k 0) 2
        currentY := 0 } := rfl

theorem spawnNewPiece_snd (g : Game) (k : Nat) :
    (spawnNewPiece g k).2 =
      isValidPosition g k 0 (Int.tdiv ((MATRIX_WIDTH : Int) - getPieceWidth k 0) 2) 0 := rfl

theorem getPieceWidth_table :
    getPieceWidth 0 0 = 4 ∧ getPieceWidth 1 0 = 2 ∧ getPieceWidth 2 0 = 3 ∧
    getPieceWidth 3 0 = 3 ∧ getPieceWidth 4 0 = 3 ∧ getPieceWidth 5 0 = 3 ∧
    getPieceWidth 6 0 = 3 := by decide

theorem spawn_cells_in_grid :
    ∀ k, k < 7 → ∀ i, i < 4 →
      0 ≤ Int.tdiv ((MATRIX_WIDTH : Int) - getPieceWidth k 0) 2 + shapeX k 0 i ∧
      Int.tdiv ((MATRIX_WIDTH : Int) - getPieceWidth k 0) 2 + shapeX k 0 i < 8 ∧
      0 ≤ (0 : Int) + shapeY k 0 i ∧ (0 : Int) + shapeY k 0 i < 8 := by decide

theorem getPieceWidth_is_bounding_width :
    ∀ k, k < 7 → ∃ i, i < 4 ∧ ∃ j, j < 4 ∧
      (∀ l, l < 4 → shapeX k 0 i ≤ shapeX k 0 l ∧ shapeX k 0 l ≤ shapeX k 0 j) ∧
      getPieceWidth k 0 = shapeX k 0 j - shapeX k 0 i + 1 := by decide

/-- The validity test looks at the board only. -/
theorem isValidPosition_congr (g h : Game) (hb : h.gameBoard = g.gameBoard) (k r : Nat)
    (x y : Int) : isValidPosition h k r x y = isValidPosition g k r x y := by
  unfold isValidPosition cellAllowed
  rw [hb]

theorem spawn_valid_on_empty_board (g : Game)
    (hempty : ∀ x y, x < 8 → y < 8 → g.gameBoard x y = false) (k : Nat) (hk : k < 7) :
    (spawnNewPiece g k).2 = true := by
  rw [spawnNewPiece_snd, isValidPosition_iff g hk]
  intro i hi
  have h := spawn_cells_in_grid k hk i hi
  rw [cellAllowed_iff]
  refine ⟨h.1, h.2.1, h.2.2.2, ?_⟩
  intro _
  apply hempty
  · omega
  · omega
/-! ## C7: spawn -/

/-- C7: for every board and every selected kind in 0..6, `spawnNewPiece` sets
rotation 0, row 0 and column `(8 - w) / 2`, with `w` the bounding width of the
rotation-0 shape as `getPieceWidth` computes it (column 3 for O and 2 for the
other kinds); it does not modify the board; it returns false exactly when that
configuration is not a valid position, and then the hard drop and the gravity
lock set `gameOver`, with the board as the line clear left it. On an empty
board the spawn is valid. -/
theorem C7_spawnNewPiece (g : Game) (k : Nat) (hk : k < 7) :
    ((spawnNewPiece g k).1.currentPiece = k ∧
      (spawnNewPiece g k).1.currentRotation = 0 ∧
      (spawnNewPiece g k).1.currentY = 0 ∧
      (spawnNewPiece g k).1.currentX = Int.tdiv (8 - getPieceWidth k 0) 2 ∧
      (k = 1 → (spawnNewPiece g k).1.currentX = 3) ∧
      (k ≠ 1 → (spawnNewPiece g k).1.currentX = 2)) ∧
    (∃ i, i < 4 ∧ ∃ j, j < 4 ∧
      (∀ l, l < 4 → shapeX k 0 i ≤ shapeX k 0 l ∧ shapeX k 0 l ≤ shapeX k 0 j) ∧
      getPieceWidth k 0 = shapeX k 0 j - shapeX k 0 i + 1) ∧
    ((spawnNewPiece g k).1.gameBoard = g.gameBoard ∧
      (spawnNewPiece g k).1.boardColors = g.boardColors) ∧
    ((spawnNewPiece g k).2 = false ↔
      isValidPosition g k 0 (spawnNewPiece g k).1.currentX (spawnNewPiece g k).1.currentY
        = false) ∧
    (∀ fuel g0 g1 d g4, dropLoop fuel g0 0 = some (g1, d) →
      clearLines fuel (placePiece { g1 with score := uadd32 g1.score (d * 2) }) = some g4 →
      (spawnNewPiece g4 k).2 = false →
      ∃ g', hardDrop fuel g0 k = some g' ∧ g'.gameOver = true ∧
        g'.gameBoard = g4.gameBoard ∧ g'.boardColors = g4.boardColors) ∧
    (∀ fuel g0 g2, clearLines fuel (placePiece g0) = some g2 →
      (spawnNewPiece g2 k).2 = false →
      ∃ g', gravityLock fuel g0 k = some g' ∧ g'.gameOver = true ∧
        g'.gameBoard = g2.gameBoard ∧ g'.boardColors = g2.boardColors) ∧
    ((∀ x y, x < 8 → y < 8 → g.gameBoard x y = false) → (spawnNewPiece g k).2 = true) := by
  refine ⟨⟨rfl, rfl, rfl, rfl, ?_, ?_⟩, getPieceWidth_is_bounding_width k hk, ⟨rfl, rfl⟩, ?_,
    ?_, ?_, fun h => spawn_valid_on_empty_board g h k hk⟩
  · intro h1
    subst h1
    show Int.tdiv ((MATRIX_WIDTH : Int) - getPieceWidth 1 0) 2 = 3
    decide
  · intro h1
    show Int.tdiv ((MATRIX_WIDTH : Int) - getPieceWidth k 0) 2 = 2
    interval_cases k
    · decide
    · exact absurd rfl h1
    · decide
    · decide
    · decide
    · decide
    · decide
  · rw [spawnNewPiece_snd, spawnNewPiece_fst]
  · intro fuel g0 g1 d g4 h1 h2 h3
    unfold hardDrop
    rw [h1]
    simp only [lockAndSpawn, h2, h3, Bool.false_eq_true, if_false]
    exact ⟨_, rfl, rfl, rfl, rfl⟩
  · intro fuel g0 g2 h1 h2
    unfold gravityLock
    simp only [lockAndSpawn, h1, h2, Bool.false_eq_true, if_false]
    split_ifs <;> exact ⟨_, rfl, rfl, rfl, rfl⟩

/-- C7, witness: the O piece spawned on the stacked board. -/
theorem C7_spawnNewPiece_witness :
    1 < 7 ∧
    ((spawnNewPiece stackedGame 1).1.currentPiece = 1 ∧
      (spawnNewPiece stackedGame 1).1.currentRotation = 0 ∧
      (spawnNewPiece stackedGame 1).1.currentY = 0 ∧
      (spawnNewPiece stackedGame 1).1.currentX = Int.tdiv (8 - getPieceWidth 1 0) 2 ∧
      (1 = 1 → (spawnNewPiece stackedGame 1).1.currentX = 3) ∧
      (1 ≠ 1 → (spawnNewPiece stackedGame 1).1.currentX = 2)) :=
  ⟨by decide, (C7_spawnNewPiece stackedGame 1 (by decide)).1⟩

/-- A failed spawn does occur: the hard drop of the I piece lying on the
stacked board locks it in row 0, the next I piece cannot spawn, and the game
is over with the locked board. -/
theorem hardDrop_stacked_game_over :
    (spawnNewPiece (placePiece stackedGame) 0).2 = false ∧
    (hardDrop 16 stackedGame 0).map (fun g => g.gameOver) = some true ∧
    (gravityLock 16 stackedGame 0).map (fun g => g.gameOver) = some true := by
  decide

/-! ## Locking a piece -/

theorem placeCell_fields (g : Game) (i : Nat) :
    placeCell g i =
      { g with
        gameBoard := (placeCell g i).gameBoard
        boardColors := (placeCell g i).boardColors } := by
  unfold placeCell
  simp only []
  split_ifs <;> rfl

theorem placeCell_gameBoard (g : Game) (i x y : Nat) :
    (placeCell g i).gameBoard x y = true ↔
      g.gameBoard x y = true ∨
        hitsCell g i x y := by
  unfold placeCell hitsCell pieceCellX pieceCellY
  simp only [MATRIX_WIDTH, MATRIX_HEIGHT, Nat.cast_ofNat, ge_iff_le]
  split_ifs with h
  · simp only [setAt]
    split_ifs with h2
    · simp only [true_iff]
      right
      exact ⟨h, by omega, by omega⟩
    · constructor
      · intro hb; exact Or.inl hb
      · rintro (hb | ⟨_, hx, hy⟩)
        · exact hb
        · exact absurd ⟨by omega, by omega⟩ h2
  · constructor
    · intro hb; exact Or.inl hb
    · rintro (hb | ⟨hin, _, _⟩)
      · exact hb
      · exact absurd hin h

theorem placeCell_hit (g : Game) (i x y : Nat)
    (hhit : hitsCell g i x y) :
    (placeCell g i).boardColors x y = (tetromino g.currentPiece).color := by
  obtain ⟨hin, hx, hy⟩ := hhit
  simp only [pieceCellX, pieceCellY] at hin hx hy
  unfold placeCell
  simp only [MATRIX_WIDTH, MATRIX_HEIGHT, Nat.cast_ofNat, ge_iff_le]
  rw [if_pos hin]
  simp only [setAt]
  rw [if_pos ⟨by omega, by omega⟩]

theorem placeCell_miss (g : Game) (i x y : Nat)
    (hmiss : ¬ hitsCell g i x y) :
    (placeCell g i).gameBoard x y = g.gameBoard x y ∧
      (placeCell g i).boardColors x y = g.boardColors x y := by
  simp only [hitsCell, pieceCellX, pieceCellY] at hmiss
  unfold placeCell
  simp only [MATRIX_WIDTH, MATRIX_HEIGHT, Nat.cast_ofNat, ge_iff_le]
  split_ifs with h
  · simp only [setAt]
    have h2 : ¬ (x = (g.currentX + shapeX g.currentPiece g.currentRotation i).toNat ∧
        y = (g.currentY + shapeY g.currentPiece g.currentRotation i).toNat) := by
      intro hxy
      exact hmiss ⟨h, by omega, by omega⟩
    rw [if_neg h2, if_neg h2]
    exact ⟨rfl, rfl⟩
  · exact ⟨rfl, rfl⟩

theorem placeCell_piece (g : Game) (c : Nat) :
    (placeCell g c).currentPiece = g.currentPiece ∧
    (placeCell g c).currentRotation = g.currentRotation ∧
    (placeCell g c).currentX = g.currentX ∧
    (placeCell g c).currentY = g.currentY := by
  unfold placeCell
  simp only []
  split_ifs <;> exact ⟨rfl, rfl, rfl, rfl⟩

theorem hitsCell_placeCell (g : Game) (c i x y : Nat) :
    hitsCell (placeCell g c) i x y ↔ hitsCell g i x y := by
  obtain ⟨h1, h2, h3, h4⟩ := placeCell_piece g c
  unfold hitsCell pieceCellX pieceCellY
  rw [h1, h2, h3, h4]

/-- The loop of `placePiece` over a list of cell numbers: it sets exactly
the cells of the piece that are inside the grid, colours them, and touches
nothing else. -/
theorem foldl_placeCell (cells : List Nat) :
    ∀ g : Game,
      cells.foldl placeCell g =
        { g with
          gameBoard := (cells.foldl placeCell g).gameBoard
          boardColors := (cells.foldl placeCell g).boardColors } ∧
      (∀ x y, (cells.foldl placeCell g).gameBoard x y = true ↔
        g.gameBoard x y = true ∨ ∃ i, i ∈ cells ∧ hitsCell g i x y) ∧
      (∀ x y, (∃ i, i ∈ cells ∧ hitsCell g i x y) →
        (cells.foldl placeCell g).boardColors x y = (tetromino g.currentPiece).color) ∧
      (∀ x y, ¬ (∃ i, i ∈ cells ∧ hitsCell g i x y) →
        (cells.foldl placeCell g).gameBoard x y = g.gameBoard x y ∧
        (cells.foldl placeCell g).boardColors x y = g.boardColors x y) := by
  induction cells with
  | nil =>
    intro g
    refine ⟨rfl, ?_, ?_, ?_⟩
    · intro x y; simp
    · intro x y h; simp at h
    · intro x y _; exact ⟨rfl, rfl⟩
  | cons c cs ih =>
    intro g
    obtain ⟨ha, hb, hc, hd⟩ := ih (placeCell g c)
    have hp := placeCell_piece g c
    simp only [List.foldl_cons]
    refine ⟨?_, ?_, ?_, ?_⟩
    · have e := Game.ext_iff.1 ha
      have e1 := Game.ext_iff.1 (placeCell_fields g c)
      simp only [true_and] at e e1
      apply Game.ext <;> simp [e, e1]
    · intro x y
      rw [hb, placeCell_gameBoard]
      simp only [hitsCell_placeCell, List.mem_cons]
      constructor
      · rintro ((h | h) | ⟨i, hi, h⟩)
        · exact Or.inl h
        · exact Or.inr ⟨c, Or.inl rfl, h⟩
        · exact Or.inr ⟨i, Or.inr hi, h⟩
      · rintro (h | ⟨i, hi | hi, h⟩)
        · exact Or.inl (Or.inl h)
        · subst hi; exact Or.inl (Or.inr h)
        · exact Or.inr ⟨i, hi, h⟩
    · intro x y hex
      by_cases hcs : ∃ i, i ∈ cs ∧ hitsCell (placeCell g c) i x y
      · rw [hc x y hcs, hp.1]
      · rw [(hd x y hcs).2]
        obtain ⟨i, hi, h⟩ := hex
        rcases List.mem_cons.1 hi with hi | hi
        · subst hi
          exact placeCell_hit g i x y h
        · exact absurd ⟨i, hi, (hitsCell_placeCell g c i x y).2 h⟩ hcs
    · intro x y hno
      have hcs : ¬ ∃ i, i ∈ cs ∧ hitsCell (placeCell g c) i x y := by
        rintro ⟨i, hi, h⟩
        exact hno ⟨i, List.mem_cons_of_mem _ hi, (hitsCell_placeCell g c i x y).1 h⟩
      have hmiss : ¬ hitsCell g c x y := fun h => hno ⟨c, List.mem_cons_self _ _, h⟩
      rw [(hd x y hcs).1, (hd x y hcs).2]
      exact placeCell_miss g c x y hmiss

theorem shapeCell_injective :
    ∀ k, k < 7 → ∀ r, r < 4 → ∀ i, i < 4 → ∀ j, j < 4 →
      shapeCell k r i = shapeCell k r j → i = j := by decide

theorem placePiece_eq_foldl (g : Game) (hk : g.currentPiece < 7) :
    placePiece g = [0, 1, 2, 3].foldl placeCell g := by
  unfold placePiece
  rw [numCells_eq_four hk]
  rfl

/-- A piece in a valid position with `currentY >= 0` has its four cells
inside the grid, on free board cells. -/
theorem legal_cells_free (g : Game) (hk : g.currentPiece < 7) (hv : LegalPiece g)
    (hy : 0 ≤ g.currentY) (i : Nat) (hi : i < 4) :
    (0 ≤ pieceCellX g i ∧ pieceCellX g i < 8 ∧ 0 ≤ pieceCellY g i ∧ pieceCellY g i < 8) ∧
      g.gameBoard (pieceCellX g i).toNat (pieceCellY g i).toNat = false := by
  unfold LegalPiece at hv
  rw [isValidPosition_iff g hk] at hv
  have h := (cellAllowed_iff g _ _).1 (hv i hi)
  have hy0 : 0 ≤ pieceCellY g i := by
    unfold pieceCellY shapeY
    omega
  exact ⟨⟨h.1, h.2.1, hy0, h.2.2.1⟩, h.2.2.2 hy0⟩

theorem isPieceCell_iff_hits (g : Game) (hk : g.currentPiece < 7) (hv : LegalPiece g)
    (hy : 0 ≤ g.currentY) (x y : Nat) :
    isPieceCell g x y ↔ ∃ i, i ∈ [0, 1, 2, 3] ∧ hitsCell g i x y := by
  have hmem : ∀ i : Nat, i ∈ [0, 1, 2, 3] ↔ i < 4 := by
    intro i
    simp only [List.mem_cons, List.mem_singleton, List.not_mem_nil, or_false]
    omega
  unfold isPieceCell hitsCell
  constructor
  · rintro ⟨i, hi, hx, hy'⟩
    exact ⟨i, (hmem i).2 hi, (legal_cells_free g hk hv hy i hi).1, hx, hy'⟩
  · rintro ⟨i, hi, _, hx, hy'⟩
    exact ⟨i, (hmem i).1 hi, hx, hy'⟩

/-! ## C8: the effect of `placePiece` -/

/-- C8: for a state with a kind in 0..6 and a rotation in 0..3 whose active
piece is in a valid position with `currentY >= 0`, after `placePiece` a board
cell is occupied exactly when it was occupied before or is one of the four
cells of the piece; those four cells lie in the grid, were free, and carry the
colour of the piece; every other cell keeps occupancy and colour; the number of
occupied cells grows by exactly 4; and no other variable (active piece, score,
level, ...) changes. -/
theorem C8_placePiece (g : Game) (hk : g.currentPiece < 7) (hr : g.currentRotation < 4)
    (hv : LegalPiece g) (hy : 0 ≤ g.currentY) :
    (∀ x y, (placePiece g).gameBoard x y = true ↔
      g.gameBoard x y = true ∨ isPieceCell g x y) ∧
    (∀ x y, isPieceCell g x y →
      x < 8 ∧ y < 8 ∧ g.gameBoard x y = false ∧
        (placePiece g).boardColors x y = (tetromino g.currentPiece).color) ∧
    (∀ x y, ¬ isPieceCell g x y →
      (placePiece g).gameBoard x y = g.gameBoard x y ∧
        (placePiece g).boardColors x y = g.boardColors x y) ∧
    occupiedCount (placePiece g) = occupiedCount g + 4 ∧
    placePiece g =
      { g with
        gameBoard := (placePiece g).gameBoard
        boardColors := (placePiece g).boardColors } := by
  obtain ⟨ha, hb, hc, hd⟩ := foldl_placeCell [0, 1, 2, 3] g
  rw [← placePiece_eq_foldl g hk] at ha hb hc hd
  have hiff := isPieceCell_iff_hits g hk hv hy
  have hfree : ∀ x y, isPieceCell g x y → x < 8 ∧ y < 8 ∧ g.gameBoard x y = false := by
    rintro x y ⟨i, hi, hx, hy'⟩
    obtain ⟨hin, hf⟩ := legal_cells_free g hk hv hy i hi
    have e1 : (pieceCellX g i).toNat = x := by omega
    have e2 : (pieceCellY g i).toNat = y := by omega
    rw [e1, e2] at hf
    exact ⟨by omega, by omega, hf⟩
  have hboard : ∀ x y, (placePiece g).gameBoard x y = true ↔
      g.gameBoard x y = true ∨ isPieceCell g x y := by
    intro x y
    rw [hb, hiff]
  refine ⟨hboard, ?_, ?_, ?_, ha⟩
  · intro x y h
    obtain ⟨h1, h2, h3⟩ := hfree x y h
    exact ⟨h1, h2, h3, hc x y ((hiff x y).1 h)⟩
  · intro x y h
    exact hd x y (fun hex => h ((hiff x y).2 hex))
  · -- the occupied set grows by the four cells of the piece
    unfold occupiedCount
    have hset : (Finset.range 8 ×ˢ Finset.range 8).filter
          (fun p => (placePiece g).gameBoard p.1 p.2 = true) =
        (Finset.range 8 ×ˢ Finset.range 8).filter (fun p => g.gameBoard p.1 p.2 = true) ∪
          (Finset.range 4).image
            (fun i => ((pieceCellX g i).toNat, (pieceCellY g i).toNat)) := by
      ext ⟨x, y⟩
      simp only [Finset.mem_filter, Finset.mem_product, Finset.mem_range, Finset.mem_union,
        Finset.mem_image, Prod.mk.injEq]
      rw [hboard]
      constructor
      · rintro ⟨hin, h | h⟩
        · exact Or.inl ⟨hin, h⟩
        · obtain ⟨i, hi, hx, hy'⟩ := h
          exact Or.inr ⟨i, hi, by omega, by omega⟩
      · rintro (⟨hin, h⟩ | ⟨i, hi, hx, hy'⟩)
        · exact ⟨hin, Or.inl h⟩
        · obtain ⟨hin, _⟩ := legal_cells_free g hk hv hy i hi
          have hp : isPieceCell g x y := ⟨i, hi, by omega, by omega⟩
          exact ⟨⟨(hfree x y hp).1, (hfree x y hp).2.1⟩, Or.inr hp⟩
    have hdisj : Disjoint
        ((Finset.range 8 ×ˢ Finset.range 8).filter (fun p => g.gameBoard p.1 p.2 = true))
        ((Finset.range 4).image
          (fun i => ((pieceCellX g i).toNat, (pieceCellY g i).toNat))) := by
      rw [Finset.disjoint_left]
      rintro ⟨x, y⟩ h1 h2
      simp only [Finset.mem_filter, Finset.mem_image, Finset.mem_range, Prod.mk.injEq] at h1 h2
      obtain ⟨i, hi, hx, hy'⟩ := h2
      obtain ⟨_, hf⟩ := legal_cells_free g hk hv hy i hi
      rw [hx, hy', h1.2] at hf
      exact Bool.noConfusion hf
    have hcard : ((Finset.range 4).image
        (fun i => ((pieceCellX g i).toNat, (pieceCellY g i).toNat))).card = 4 := by
      rw [Finset.card_image_of_injOn, Finset.card_range]
      intro i hi j hj hij
      simp only [Finset.coe_range, Set.mem_Iio] at hi hj
      simp only [Prod.mk.injEq] at hij
      obtain ⟨hini, _⟩ := legal_cells_free g hk hv hy i hi
      obtain ⟨hinj, _⟩ := legal_cells_free g hk hv hy j hj
      apply shapeCell_injective g.currentPiece hk g.currentRotation hr i hi j hj
      unfold pieceCellX pieceCellY shapeX shapeY at hini hinj hij
      apply Prod.ext
      · omega
      · omega
    rw [hset, Finset.card_union_of_disjoint hdisj, hcard]

/-- C8, witness: the I piece lying on the stacked board. -/
theorem C8_placePiece_witness :
    (stackedGame.currentPiece < 7 ∧ stackedGame.currentRotation < 4 ∧
      LegalPiece stackedGame ∧ 0 ≤ stackedGame.currentY) ∧
    occupiedCount (placePiece stackedGame) = occupiedCount stackedGame + 4 :=
  ⟨⟨by decide, by decide, by decide, by decide⟩,
    (C8_placePiece stackedGame (by decide) (by decide) (by decide) (by decide)).2.2.2.1⟩

/-! ## The hard drop -/

theorem movePieceDown_ok (g : Game)
    (h : isValidPosition g g.currentPiece g.currentRotation g.currentX (g.currentY + 1) = true) :
    movePieceDown g = ({ g with currentY := g.currentY + 1 }, true) := by
  unfold movePieceDown
  rw [if_pos h]

theorem movePieceDown_blocked (g : Game)
    (h : isValidPosition g g.currentPiece g.currentRotation g.currentX (g.currentY + 1) = false) :
    movePieceDown g = (g, false) := by
  unfold movePieceDown
  rw [h]
  rfl

/-- The drop loop: when the `d` positions below the piece are valid and the
next one is not, `d` passes of the body move the piece down `d` rows. -/
theorem dropLoop_spec (d : Nat) :
    ∀ (fuel : Nat) (g : Game) (c : Nat),
      (∀ j : Nat, 1 ≤ j → j ≤ d →
        isValidPosition g g.currentPiece g.currentRotation g.currentX (g.currentY + j) = true) →
      isValidPosition g g.currentPiece g.currentRotation g.currentX (g.currentY + d + 1) = false →
      d ≤ fuel →
      dropLoop fuel g c = some ({ g with currentY := g.currentY + d }, c + d) := by
  induction d with
  | zero =>
    intro fuel g c _ hstop _
    have hb := movePieceDown_blocked g (by simpa using hstop)
    unfold dropLoop
    rw [hb]
    simp
  | succ n ih =>
    intro fuel g c hval hstop hfuel
    have h1 := hval 1 (le_refl _) (by omega)
    have hm := movePieceDown_ok g (by simpa using h1)
    cases fuel with
    | zero => omega
    | succ f =>
      unfold dropLoop
      rw [hm]
      simp only [if_true]
      have hcongr : ∀ y, isValidPosition { g with currentY := g.currentY + 1 } g.currentPiece
          g.currentRotation g.currentX y =
          isValidPosition g g.currentPiece g.currentRotation g.currentX y :=
        fun y => isValidPosition_congr g _ rfl _ _ _ _
      have := ih f { g with currentY := g.currentY + 1 } (c + 1)
        (by
          intro j hj1 hj2
          have := hval (j + 1) (by omega) (by omega)
          simp only [hcongr]
          rw [← this]
          congr 1
          push_cast
          omega)
        (by
          simp only [hcongr]
          rw [← hstop]
          congr 1
          push_cast
          omega)
        (by omega)
      rw [this]
      congr 2
      · apply Game.ext <;> simp
        omega
      · omega

theorem dropLoop_starved (d : Nat) :
    ∀ (fuel : Nat) (g : Game) (c : Nat),
      (∀ j : Nat, 1 ≤ j → j ≤ d →
        isValidPosition g g.currentPiece g.currentRotation g.currentX (g.currentY + j) = true) →
      fuel < d → dropLoop fuel g c = none := by
  induction d with
  | zero => intro fuel g c _ h; omega
  | succ n ih =>
    intro fuel g c hval hfuel
    have h1 := hval 1 (le_refl _) (by omega)
    have hm := movePieceDown_ok g (by simpa using h1)
    cases fuel with
    | zero =>
      unfold dropLoop
      rw [hm]
      simp
    | succ f =>
      unfold dropLoop
      rw [hm]
      simp only [if_true]
      have hcongr : ∀ y, isValidPosition { g with currentY := g.currentY + 1 } g.currentPiece
          g.currentRotation g.currentX y =
          isValidPosition g g.currentPiece g.currentRotation g.currentX y :=
        fun y => isValidPosition_congr g _ rfl _ _ _ _
      apply ih f { g with currentY := g.currentY + 1 } (c + 1)
      · intro j hj1 hj2
        have := hval (j + 1) (by omega) (by omega)
        simp only [hcongr]
        rw [← this]
        congr 1
        push_cast
        omega
      · omega

/-- A position far enough down is never valid: cell 0 is below the floor. -/
theorem invalid_below_floor (g : Game) {k : Nat} (hk : k < 7) (r : Nat) (x y : Int)
    (hy : 8 ≤ y) : isValidPosition g k r x y = false := by
  rw [← Bool.not_eq_true, isValidPosition_iff g hk]
  intro h
  have h0 := (cellAllowed_iff g _ _).1 (h 0 (by omega))
  have : 0 ≤ shapeY k r 0 := by unfold shapeY; omega
  omega

/-! ## C6: hard drop -/

/-- C6: for a state with a kind in 0..6 whose active piece is in a valid
position there is a unique `d >= 0` such that the positions `y + 1 .. y + d`
are all valid and `y + d + 1` is not; given fuel for `d` passes the drop loop
moves the piece straight down by `d` rows and counts `dropDistance = d`
(with less fuel it does not finish), and the hard drop then adds `2 * d` to the
score (unsigned 32-bit) before it locks the piece at `(x, y + d)`. -/
theorem C6_hardDrop (g : Game) (hk : g.currentPiece < 7) (hv : LegalPiece g)
    (newPiece : Nat) :
    ∃ d : Nat,
      (∀ j : Nat, 1 ≤ j → j ≤ d →
        isValidPosition g g.currentPiece g.currentRotation g.currentX (g.currentY + j)
          = true) ∧
      isValidPosition g g.currentPiece g.currentRotation g.currentX (g.currentY + d + 1)
        = false ∧
      (∀ d' : Nat,
        (∀ j : Nat, 1 ≤ j → j ≤ d' →
          isValidPosition g g.currentPiece g.currentRotation g.currentX (g.currentY + j)
            = true) →
        isValidPosition g g.currentPiece g.currentRotation g.currentX (g.currentY + d' + 1)
          = false →
        d' = d) ∧
      (∀ fuel, d ≤ fuel →
        dropLoop fuel g 0 = some ({ g with currentY := g.currentY + d }, d)) ∧
      (∀ fuel, fuel < d → dropLoop fuel g 0 = none) ∧
      (∀ fuel, d ≤ fuel →
        hardDrop fuel g newPiece =
          lockAndSpawn fuel
            { g with currentY := g.currentY + d, score := uadd32 g.score (d * 2) } newPiece) ∧
      uadd32 g.score (d * 2) = (g.score + 2 * d) % U32 ∧
      (g.score + 2 * d < U32 → uadd32 g.score (d * 2) = g.score + 2 * d) ∧
      LegalPiece { g with currentY := g.currentY + d, score := uadd32 g.score (d * 2) } := by
  have hex : ∃ j : Nat,
      isValidPosition g g.currentPiece g.currentRotation g.currentX (g.currentY + j + 1)
        = false := by
    refine ⟨(8 - g.currentY).toNat, ?_⟩
    apply invalid_below_floor g hk
    omega
  have hspec := Nat.find_spec hex
  have hmin := fun j => Nat.find_min hex (m := j)
  have hvalid : ∀ j : Nat, 1 ≤ j → j ≤ Nat.find hex →
      isValidPosition g g.currentPiece g.currentRotation g.currentX (g.currentY + j) = true := by
    intro j hj1 hj2
    have := hmin (j - 1) (by omega)
    rw [Bool.not_eq_false] at this
    rw [← this]
    congr 1
    omega
  have hloop := fun fuel hf => dropLoop_spec (Nat.find hex) fuel g 0 hvalid hspec hf
  refine ⟨Nat.find hex, hvalid, hspec, ?_, ?_, ?_, ?_, ?_, ?_, ?_⟩
  · intro d' hv' hs'
    rcases Nat.lt_trichotomy d' (Nat.find hex) with hlt | heq | hgt
    · have h1 := hvalid (d' + 1) (by omega) (by omega)
      have e : g.currentY + ((d' + 1 : Nat) : Int) = g.currentY + d' + 1 := by
        push_cast; omega
      rw [e, hs'] at h1
      exact Bool.noConfusion h1
    · exact heq
    · have h1 := hv' (Nat.find hex + 1) (by omega) (by omega)
      have e : g.currentY + ((Nat.find hex + 1 : Nat) : Int) =
          g.currentY + (Nat.find hex : Nat) + 1 := by
        push_cast; omega
      rw [e, hspec] at h1
      exact Bool.noConfusion h1
  · intro fuel hf
    have := hloop fuel hf
    simpa using this
  · intro fuel hf
    exact dropLoop_starved (Nat.find hex) fuel g 0 hvalid hf
  · intro fuel hf
    unfold hardDrop
    rw [hloop fuel hf]
    simp
  · unfold uadd32
    congr 1
    omega
  · intro hlt
    unfold uadd32
    rw [Nat.mod_eq_of_lt (by omega)]
    omega
  · unfold LegalPiece
    simp only []
    rw [isValidPosition_congr g
      { g with currentY := g.currentY + Nat.find hex, score := uadd32 g.score (Nat.find hex * 2) }
      rfl]
    by_cases h0 : Nat.find hex = 0
    · rw [h0]
      simpa [LegalPiece] using hv
    · exact hvalid (Nat.find hex) (by omega) (le_refl _)


/-- C6, witness: the I piece in rotation 0 at row 0 of the empty board drops
7 rows and the hard drop awards 14 points before the lock. -/
theorem C6_hardDrop_witness :
    (firstPieceGame.currentPiece < 7 ∧ LegalPiece firstPieceGame) ∧
    (firstPieceGame.currentPiece = 0 ∧ firstPieceGame.currentRotation = 0 ∧
      firstPieceGame.currentY = 0 ∧ firstPieceGame.score = 0) ∧
    (∀ fuel, 7 ≤ fuel →
      dropLoop fuel firstPieceGame 0 =
        some ({ firstPieceGame with currentY := firstPieceGame.currentY + (7 : Nat) }, 7)) ∧
    (∀ fuel, 7 ≤ fuel →
      hardDrop fuel firstPieceGame 0 =
        lockAndSpawn fuel
          { firstPieceGame with
            currentY := firstPieceGame.currentY + (7 : Nat)
            score := uadd32 firstPieceGame.score (7 * 2) } 0) ∧
    uadd32 firstPieceGame.score (7 * 2) = 14 := by
  obtain ⟨d, _, _, huniq, hloop, _, hdrop, _, _, _⟩ :=
    C6_hardDrop firstPieceGame (by decide) (by decide) 0
  have h7 : 7 = d := by
    apply huniq 7
    · intro j h1 h2
      interval_cases j <;> decide
    · decide
  subst h7
  exact ⟨⟨by decide, by decide⟩, ⟨rfl, rfl, rfl, rfl⟩, hloop, hdrop, by decide⟩

/-! ## C5: the active piece stays legal -/

theorem LegalPiece_congr (g h : Game) (hb : h.gameBoard = g.gameBoard)
    (hp : h.currentPiece = g.currentPiece) (hr : h.currentRotation = g.currentRotation)
    (hx : h.currentX = g.currentX) (hy : h.currentY = g.currentY) :
    LegalPiece h ↔ LegalPiece g := by
  unfold LegalPiece
  rw [hp, hr, hx, hy, isValidPosition_congr g h hb]

theorem legal_movePieceLeft (g : Game) (h : g.gameOver = false → LegalPiece g) :
    (movePieceLeft g).1.gameOver = false → LegalPiece (movePieceLeft g).1 := by
  unfold movePieceLeft
  split_ifs with hv
  · intro _; exact hv
  · exact h

theorem legal_movePieceRight (g : Game) (h : g.gameOver = false → LegalPiece g) :
    (movePieceRight g).1.gameOver = false → LegalPiece (movePieceRight g).1 := by
  unfold movePieceRight
  split_ifs with hv
  · intro _; exact hv
  · exact h

theorem legal_movePieceDown (g : Game) (h : g.gameOver = false → LegalPiece g) :
    (movePieceDown g).1.gameOver = false → LegalPiece (movePieceDown g).1 := by
  unfold movePieceDown
  split_ifs with hv
  · intro _; exact hv
  · exact h

theorem legal_rotatePiece (g : Game) (h : g.gameOver = false → LegalPiece g) :
    (rotatePiece g).1.gameOver = false → LegalPiece (rotatePiece g).1 := by
  unfold rotatePiece
  simp only []
  split_ifs with h0 h1 h2
  · intro _; exact h0
  · intro _; exact h1
  · intro _; exact h2
  · exact h

/-- After the lock, line clear and spawn, the new piece is legal unless the
game is over. -/
theorem legal_lockAndSpawn (fuel : Nat) (g g' : Game) (k : Nat)
    (h : lockAndSpawn fuel g k = some g') : g'.gameOver = false → LegalPiece g' := by
  unfold lockAndSpawn at h
  cases hc : clearLines fuel (placePiece g) with
  | none => rw [hc] at h; exact Option.noConfusion h
  | some g2 =>
    rw [hc] at h
    simp only [] at h
    by_cases hs : (spawnNewPiece g2 k).2 = true
    · rw [if_pos hs] at h
      injection h with h
      subst h
      intro _
      exact hs
    · rw [if_neg hs] at h
      injection h with h
      subst h
      intro hgo
      exact Bool.noConfusion hgo

theorem legal_hardDrop (fuel : Nat) (g g' : Game) (k : Nat)
    (h : hardDrop fuel g k = some g') : g'.gameOver = false → LegalPiece g' := by
  unfold hardDrop at h
  cases hd : dropLoop fuel g 0 with
  | none => rw [hd] at h; exact Option.noConfusion h
  | some r =>
    rw [hd] at h
    exact legal_lockAndSpawn fuel _ g' k h

/-- What the gravity lock does after the lock, line clear and spawn: it
leaves board, piece, `gameOver` and score alone and raises the level when the
score is a positive multiple of 500. -/
theorem gravityLock_after (fuel : Nat) (g g3 : Game) (k : Nat)
    (hl : lockAndSpawn fuel g k = some g3) :
    ∃ g', gravityLock fuel g k = some g' ∧
      g'.gameBoard = g3.gameBoard ∧ g'.boardColors = g3.boardColors ∧
      g'.currentPiece = g3.currentPiece ∧ g'.currentRotation = g3.currentRotation ∧
      g'.currentX = g3.currentX ∧ g'.currentY = g3.currentY ∧
      g'.gameOver = g3.gameOver ∧ g'.score = g3.score ∧
      g'.level = if g3.score > 0 ∧ g3.score % 500 = 0 then uadd32 g3.level 1 else g3.level := by
  unfold gravityLock
  rw [hl]
  simp only []
  by_cases hs : g3.gameSpeed > MIN_GAME_SPEED
  · simp only [hs, if_true]
    by_cases hc : g3.score > 0 ∧ g3.score % 500 = 0
    · rw [if_pos hc, if_pos hc]
      exact ⟨_, rfl, rfl, rfl, rfl, rfl, rfl, rfl, rfl, rfl, rfl⟩
    · rw [if_neg hc, if_neg hc]
      exact ⟨_, rfl, rfl, rfl, rfl, rfl, rfl, rfl, rfl, rfl, rfl⟩
  · simp only [hs, if_false]
    by_cases hc : g3.score > 0 ∧ g3.score % 500 = 0
    · rw [if_pos hc, if_pos hc]
      exact ⟨_, rfl, rfl, rfl, rfl, rfl, rfl, rfl, rfl, rfl, rfl⟩
    · rw [if_neg hc, if_neg hc]
      exact ⟨_, rfl, rfl, rfl, rfl, rfl, rfl, rfl, rfl, rfl, rfl⟩

theorem legal_gravityLock (fuel : Nat) (g g' : Game) (k : Nat)
    (h : gravityLock fuel g k = some g') : g'.gameOver = false → LegalPiece g' := by
  cases hl : lockAndSpawn fuel g k with
  | none =>
    unfold gravityLock at h
    rw [hl] at h
    exact Option.noConfusion h
  | some g3 =>
    obtain ⟨g'', h1, hb, _, hp, hr, hx, hy, hgo, _, _⟩ := gravityLock_after fuel g g3 k hl
    rw [h1] at h
    injection h with h
    subst h
    intro hover
    rw [hgo] at hover
    exact (LegalPiece_congr g3 g'' hb hp hr hx hy).2 (legal_lockAndSpawn fuel g g3 k hl hover)

theorem legal_gravityTick (fuel : Nat) (g g' : Game) (inp : Input)
    (hg : g.gameOver = false → LegalPiece g) (h : gravityTick fuel g inp = some g') :
    g'.gameOver = false → LegalPiece g' := by
  unfold gravityTick at h
  simp only [] at h
  by_cases hm : (movePieceDown g).2 = true
  · rw [if_pos hm] at h
    injection h with h
    subst h
    exact legal_movePieceDown g hg
  · rw [if_neg hm] at h
    cases hl : gravityLock fuel (movePieceDown g).1 (inp.newPiece 1) with
    | none => rw [hl] at h; exact Option.noConfusion h
    | some g1 =>
      rw [hl] at h
      injection h with h
      subst h
      exact legal_gravityLock fuel _ g1 _ hl

theorem legal_resetGame (g : Game) (k : Nat) (hk : k < 7) : LegalPiece (resetGame g k) := by
  unfold resetGame
  exact spawn_valid_on_empty_board _ (fun _ _ _ _ => rfl) k hk

/-- A state with the same board, active piece and `gameOver` flag is legal
when the other one is. -/
theorem legal_of_same (g h : Game) (hb : h.gameBoard = g.gameBoard)
    (hp : h.currentPiece = g.currentPiece) (hr : h.currentRotation = g.currentRotation)
    (hx : h.currentX = g.currentX) (hy : h.currentY = g.currentY)
    (hgo : h.gameOver = g.gameOver) (hg : g.gameOver = false → LegalPiece g) :
    h.gameOver = false → LegalPiece h := by
  intro hover
  rw [hgo] at hover
  exact (LegalPiece_congr g h hb hp hr hx hy).2 (hg hover)

theorem legal_checkPauseButton (g : Game) (inp : Input)
    (hg : g.gameOver = false → LegalPiece g) :
    (checkPauseButton g inp).gameOver = false → LegalPiece (checkPauseButton g inp) := by
  apply legal_of_same g _ _ _ _ _ _ _ hg <;>
    (unfold checkPauseButton; simp only []; split_ifs <;> rfl)

theorem legal_leftButton (g : Game) (inp : Input) (hg : g.gameOver = false → LegalPiece g) :
    (leftButton g inp).gameOver = false → LegalPiece (leftButton g inp) := by
  unfold leftButton
  split_ifs
  · exact legal_of_same _ _ rfl rfl rfl rfl rfl rfl
      (legal_movePieceLeft _ (legal_of_same g _ rfl rfl rfl rfl rfl rfl hg))
  · exact legal_of_same g _ rfl rfl rfl rfl rfl rfl hg
  · exact hg

theorem legal_rightButton (g : Game) (inp : Input) (hg : g.gameOver = false → LegalPiece g) :
    (rightButton g inp).gameOver = false → LegalPiece (rightButton g inp) := by
  unfold rightButton
  split_ifs
  · exact legal_of_same _ _ rfl rfl rfl rfl rfl rfl
      (legal_movePieceRight _ (legal_of_same g _ rfl rfl rfl rfl rfl rfl hg))
  · exact legal_of_same g _ rfl rfl rfl rfl rfl rfl hg
  · exact hg

theorem legal_rotateButton (g : Game) (inp : Input) (hg : g.gameOver = false → LegalPiece g) :
    (rotateButton g inp).gameOver = false → LegalPiece (rotateButton g inp) := by
  unfold rotateButton
  split_ifs
  · exact legal_of_same _ _ rfl rfl rfl rfl rfl rfl
      (legal_rotatePiece _ (legal_of_same g _ rfl rfl rfl rfl rfl rfl hg))
  · exact legal_of_same g _ rfl rfl rfl rfl rfl rfl hg
  · exact hg

theorem legal_dropButton (fuel : Nat) (g g' : Game) (inp : Input)
    (hg : g.gameOver = false → LegalPiece g) (h : dropButton fuel g inp = some g') :
    g'.gameOver = false → LegalPiece g' := by
  unfold dropButton at h
  split_ifs at h
  · cases hd : hardDrop fuel { g with dropPressed := true } (inp.newPiece 0) with
    | none => rw [hd] at h; exact Option.noConfusion h
    | some g4 =>
      rw [hd] at h
      injection h with h
      subst h
      exact legal_of_same g4 _ rfl rfl rfl rfl rfl rfl (legal_hardDrop fuel _ g4 _ hd)
  · injection h with h
    subst h
    exact legal_of_same g _ rfl rfl rfl rfl rfl rfl hg
  · injection h with h
    subst h
    exact hg

theorem legal_checkGameButtons (fuel : Nat) (g g' : Game) (inp : Input)
    (hg : g.gameOver = false → LegalPiece g) (h : checkGameButtons fuel g inp = some g') :
    g'.gameOver = false → LegalPiece g' := by
  unfold checkGameButtons at h
  split_ifs at h
  · exact legal_dropButton fuel _ g' inp
      (legal_rotateButton _ inp (legal_rightButton _ inp (legal_leftButton g inp hg))) h
  · injection h with h
    subst h
    exact hg

/-- One iteration of `loop` keeps the active piece legal unless the game is
over. -/
theorem legal_loop (fuel : Nat) (g g' : Game) (inp : Input)
    (hg : g.gameOver = false → LegalPiece g) (h : loop fuel g inp = some g') :
    g'.gameOver = false → LegalPiece g' := by
  have hp := legal_checkPauseButton g inp hg
  unfold loop at h
  simp only [] at h
  split_ifs at h with h1 h2 h3
  · injection h with h; subst h; exact hp
  · injection h with h; subst h
    intro _
    exact legal_resetGame _ _ (inp.newPiece 2).isLt
  · injection h with h; subst h; exact hp
  · cases hb : checkGameButtons fuel (checkPauseButton g inp) inp with
    | none => rw [hb] at h; exact Option.noConfusion h
    | some g2 =>
      rw [hb] at h
      have h2' := legal_checkGameButtons fuel _ g2 inp hp hb
      simp only [] at h
      split_ifs at h
      · exact legal_gravityTick fuel g2 g' inp h2' h
      · injection h with h; subst h; exact h2'

/-- C5: in every reachable state (from the state after the spawn of `setup`,
by moves left, right and down, rotation, hard drop, gravity tick and reset, and
by whole iterations of `loop`), if `gameOver` is false then `isValidPosition`
accepts the active piece against the current board. -/
theorem C5_active_piece_legal (g : Game) (hr : Reachable g) (hgo : g.gameOver = false) :
    LegalPiece g := by
  have hinv : g.gameOver = false → LegalPiece g := by
    clear hgo
    induction hr with
    | setup k hk =>
      intro _
      exact spawn_valid_on_empty_board initialGlobals (fun _ _ _ _ => rfl) k hk
    | left g _ ih => exact legal_movePieceLeft g ih
    | right g _ ih => exact legal_movePieceRight g ih
    | down g _ ih => exact legal_movePieceDown g ih
    | rotate g _ ih => exact legal_rotatePiece g ih
    | drop g g' fuel k _ _ h _ => exact legal_hardDrop fuel g g' k h
    | gravity g g' fuel inp _ h ih => exact legal_gravityTick fuel g g' inp ih h
    | reset g k hk _ _ => intro _; exact legal_resetGame g k hk
    | iteration g g' fuel inp _ h ih => exact legal_loop fuel g g' inp ih h
  exact hinv hgo

/-- C5, witness: the first piece of a game after a rotation and a move to
the left. -/
theorem C5_active_piece_legal_witness :
    (Reachable (movePieceLeft (rotatePiece firstPieceGame).1).1 ∧
      (movePieceLeft (rotatePiece firstPieceGame).1).1.gameOver = false) ∧
    LegalPiece (movePieceLeft (rotatePiece firstPieceGame).1).1 :=
  ⟨⟨Reachable.left _ (Reachable.rotate _ (Reachable.setup 0 (by decide))), by decide⟩,
    C5_active_piece_legal _
      (Reachable.left _ (Reachable.rotate _ (Reachable.setup 0 (by decide)))) (by decide)⟩


/-! ## C9: level-up on a gravity lock -/

theorem placePiece_fields (g : Game) :
    placePiece g =
      { g with
        gameBoard := (placePiece g).gameBoard
        boardColors := (placePiece g).boardColors } :=
  (foldl_placeCell _ g).1

/-- The lock, line clear and spawn sequence returns whenever its line clear
does, with the score and level the line clear left. -/
theorem lockAndSpawn_after (fuel : Nat) (g g2 : Game) (k : Nat)
    (hc : clearLines fuel (placePiece g) = some g2) :
    ∃ g3, lockAndSpawn fuel g k = some g3 ∧ g3.score = g2.score ∧ g3.level = g2.level ∧
      g3.gameBoard = g2.gameBoard ∧ g3.boardColors = g2.boardColors := by
  unfold lockAndSpawn
  rw [hc]
  simp only []
  split_ifs <;> exact ⟨_, rfl, rfl, rfl, rfl, rfl⟩

/-- What the level test of the gravity lock computes, as coded at
`if (score > 0 && score % 500 == 0)`: given fuel for the passes of the line
clear, the level goes up by 1 (unsigned 32-bit) exactly when the score after
the line clear is positive and a multiple of 500, whether or not the lock
changed the score. This describes the code, it is not the level-up rule of the
specification (see C9). -/
theorem gravityLock_level_test (fuel : Nat) (g : Game) (k : Nat)
    (hf : 8 + fullRowCount (placePiece g) ≤ fuel) :
    ∃ g2 g', clearLines fuel (placePiece g) = some g2 ∧
      gravityLock fuel g k = some g' ∧
      g'.score = g2.score ∧
      (g'.level = (g.level + 1) % U32 ↔ (0 < g2.score ∧ g2.score % 500 = 0)) ∧
      (¬ (0 < g2.score ∧ g2.score % 500 = 0) → g'.level = g.level) ∧
      ((0 < g2.score ∧ g2.score % 500 = 0) → g.level + 1 < U32 →
        g'.level = g.level + 1) := by
  obtain ⟨g2, hc, _, hg2⟩ := clearLines_spec fuel (placePiece g) hf
  have hlev2 : g2.level = g.level := by
    have h1 : g2.level = (placePiece g).level := by rw [hg2]
    rw [h1, placePiece_fields g]
  obtain ⟨g3, hl, hs3, hl3, _, _⟩ := lockAndSpawn_after fuel g g2 k hc
  obtain ⟨g', hgl, _, _, _, _, _, _, _, hs, hlev⟩ := gravityLock_after fuel g g3 k hl
  rw [hs3, hl3, hlev2] at hlev
  rw [hs3] at hs
  refine ⟨g2, g', hc, hgl, hs, ?_, ?_, ?_⟩
  · by_cases hcnd : g2.score > 0 ∧ g2.score % 500 = 0
    · rw [if_pos hcnd] at hlev
      constructor
      · intro _; exact hcnd
      · intro _; rw [hlev]; rfl
    · rw [if_neg hcnd] at hlev
      constructor
      · intro h
        rw [hlev] at h
        simp only [U32] at h
        omega
      · intro h; exact absurd h hcnd
  · intro hcnd
    rw [if_neg hcnd] at hlev
    exact hlev
  · intro hcnd hlt
    rw [if_pos hcnd] at hlev
    rw [hlev]
    unfold uadd32
    exact Nat.mod_eq_of_lt hlt

set_option maxRecDepth 100000 in
/-- C9, the code at the failing inputs. The claim asks for a level-up exactly
when the score crosses a multiple of 500 during the lock. In `crossingGame`
the gravity lock clears one line and takes the score from 490 to 510, across
500, and the level stays 1: the crossing is missed. In `restingGame` the lock
clears nothing, the score stays 500, and the level goes from 1 to 2. Seven
gravity ticks later the next piece has come to rest (the state observed is
`secondRestGame`), and its lock, again at a score resting on 500, takes the
level to 3: the level-up fires at every lock without any crossing. -/
theorem C9_level_test_misses_crossing :
    ((movePieceDown crossingGame).2 = false ∧
      crossingGame.score = 490 ∧ crossingGame.level = 1 ∧
      (clearLines 16 (placePiece crossingGame)).map (fun g => g.score) = some 510 ∧
      (gravityLock 16 crossingGame 0).map (fun g => (g.score, g.level)) = some (510, 1) ∧
      (gravityLock 16 crossingGame 0).map
        (fun g => decide (g.level = crossingGame.level + 1 ↔
          g.score / 500 > crossingGame.score / 500)) = some false) ∧
    ((movePieceDown restingGame).2 = false ∧
      restingGame.score = 500 ∧ restingGame.level = 1 ∧
      (clearLines 16 (placePiece restingGame)).map (fun g => g.score) = some 500 ∧
      (gravityLock 16 restingGame 0).map (fun g => (g.score, g.level)) = some (500, 2) ∧
      (gravityLock 16 restingGame 0).map
        (fun g => decide (g.level = restingGame.level + 1 ↔
          g.score / 500 > restingGame.score / 500)) = some false) ∧
    ((runLoop 16 restingGame [tickAt 1000]).map (fun g => (g.score, g.level, g.gameOver)) =
        some (500, 2, false) ∧
      (runLoop 16 restingGame
          [tickAt 1000, tickAt 2000, tickAt 3000, tickAt 4000, tickAt 5000, tickAt 6000,
            tickAt 7000]).map (fun g => (g.score, g.level, g.gameOver)) =
        some (secondRestGame.score, secondRestGame.level, secondRestGame.gameOver) ∧
      (runLoop 16 restingGame
          [tickAt 1000, tickAt 2000, tickAt 3000, tickAt 4000, tickAt 5000, tickAt 6000,
            tickAt 7000]).map
          (fun g => (g.currentPiece, g.currentRotation, g.currentX, g.currentY)) =
        some (secondRestGame.currentPiece, secondRestGame.currentRotation,
          secondRestGame.currentX, secondRestGame.currentY) ∧
      (runLoop 16 restingGame
          [tickAt 1000, tickAt 2000, tickAt 3000, tickAt 4000, tickAt 5000, tickAt 6000,
            tickAt 7000]).map
          (fun g => (List.range 8).map fun y => (List.range 8).filter fun x => g.gameBoard x y) =
        some ((List.range 8).map fun y =>
          (List.range 8).filter fun x => secondRestGame.gameBoard x y)) ∧
    ((secondRestGame.score = 500 ∧ secondRestGame.level = 2) ∧
      (movePieceDown secondRestGame).2 = false ∧
      (clearLines 16 (placePiece secondRestGame)).map (fun g => g.score) = some 500 ∧
      (loop 16 secondRestGame (tickAt 8000)).map (fun g => (g.score, g.level, g.gameOver)) =
        some (500, 3, false) ∧
      (gravityLock 16 secondRestGame 0).map
        (fun g => decide (g.level = secondRestGame.level + 1 ↔
          g.score / 500 > secondRestGame.score / 500)) = some false) := by
  decide

/-! ## C11: reset -/

/-- C11: from every state, `resetGame` (its spawn selecting a kind in 0..6)
leaves every board cell unoccupied, score 0, level 1, the gravity interval at
`INITIAL_GAME_SPEED` = 600 and `gameOver` false, with a fresh piece at rotation
0, row 0, horizontally centred and in a valid position; the paused flag is not
changed. -/
theorem C11_resetGame (g : Game) (k : Nat) (hk : k < 7) :
    (∀ x y, (resetGame g k).gameBoard x y = false) ∧
    (resetGame g k).score = 0 ∧
    (resetGame g k).level = 1 ∧
    ((resetGame g k).gameSpeed = INITIAL_GAME_SPEED ∧ INITIAL_GAME_SPEED = 600) ∧
    (resetGame g k).gameOver = false ∧
    ((resetGame g k).currentPiece = k ∧
      (resetGame g k).currentRotation = 0 ∧
      (resetGame g k).currentY = 0 ∧
      (resetGame g k).currentX = Int.tdiv (8 - getPieceWidth k 0) 2 ∧
      (k = 1 → (resetGame g k).currentX = 3) ∧
      (k ≠ 1 → (resetGame g k).currentX = 2)) ∧
    LegalPiece (resetGame g k) ∧
    (resetGame g k).isPaused = g.isPaused := by
  refine ⟨fun _ _ => rfl, rfl, rfl, ⟨rfl, rfl⟩, rfl, ⟨rfl, rfl, rfl, rfl, ?_, ?_⟩,
    legal_resetGame g k hk, rfl⟩
  · intro h1
    subst h1
    show Int.tdiv ((MATRIX_WIDTH : Int) - getPieceWidth 1 0) 2 = 3
    decide
  · intro h1
    show Int.tdiv ((MATRIX_WIDTH : Int) - getPieceWidth k 0) 2 = 2
    interval_cases k
    · decide
    · exact absurd rfl h1
    · decide
    · decide
    · decide
    · decide
    · decide

/-- C11, witness: a reset of the stacked board that selects the T piece. -/
theorem C11_resetGame_witness :
    2 < 7 ∧
    (∀ x y, (resetGame stackedGame 2).gameBoard x y = false) ∧
    (resetGame stackedGame 2).score = 0 ∧
    (resetGame stackedGame 2).level = 1 ∧
    LegalPiece (resetGame stackedGame 2) :=
  ⟨by decide, (C11_resetGame stackedGame 2 (by decide)).1,
    (C11_resetGame stackedGame 2 (by decide)).2.1,
    (C11_resetGame stackedGame 2 (by decide)).2.2.1,
    (C11_resetGame stackedGame 2 (by decide)).2.2.2.2.2.2.1⟩

/-! ## C12: horizontal moves -/

/-- C12: `movePieceLeft` returns true exactly when `isValidPosition` accepts
the active piece at `x - 1` with the same rotation and row; on true the state
is the old one with `currentX` decreased by 1, on false it is the old state.
`movePieceRight` is the same with `x + 1`. -/
theorem C12_horizontal_moves (g : Game) :
    (((movePieceLeft g).2 = true ↔
        isValidPosition g g.currentPiece g.currentRotation (g.currentX - 1) g.currentY = true) ∧
      ((movePieceLeft g).2 = true →
        (movePieceLeft g).1 = { g with currentX := g.currentX - 1 }) ∧
      ((movePieceLeft g).2 = false → (movePieceLeft g).1 = g)) ∧
    (((movePieceRight g).2 = true ↔
        isValidPosition g g.currentPiece g.currentRotation (g.currentX + 1) g.currentY = true) ∧
      ((movePieceRight g).2 = true →
        (movePieceRight g).1 = { g with currentX := g.currentX + 1 }) ∧
      ((movePieceRight g).2 = false → (movePieceRight g).1 = g)) := by
  constructor
  · by_cases h : isValidPosition g g.currentPiece g.currentRotation (g.currentX - 1) g.currentY
        = true
    · simp [movePieceLeft, h]
    · simp [movePieceLeft, h]
  · by_cases h : isValidPosition g g.currentPiece g.currentRotation (g.currentX + 1) g.currentY
        = true
    · simp [movePieceRight, h]
    · simp [movePieceRight, h]

/-! ## C13: the shape table -/

/-- C13: for every kind in 0..6 and rotation in 0..3 the table gives
`numCells = 4` and a rotation state of exactly 4 cell offsets, pairwise
distinct, with every coordinate in 0..3; and every kind has 4 rotation
states. -/
theorem C13_table_wellformed (k r : Nat) (hk : k < 7) (hr : r < 4) :
    (tetromino k).numCells = 4 ∧
    (tetromino k).shapes.length = 4 ∧
    ((tetromino k).shapes.getD r []).length = 4 ∧
    ((tetromino k).shapes.getD r []).Nodup ∧
    (∀ c, c ∈ (tetromino k).shapes.getD r [] → c.1 ≤ 3 ∧ c.2 ≤ 3) ∧
    (∀ i, i < 4 → ∀ j, j < 4 → shapeCell k r i = shapeCell k r j → i = j) ∧
    (∀ i, i < 4 → 0 ≤ shapeX k r i ∧ shapeX k r i ≤ 3 ∧ 0 ≤ shapeY k r i ∧ shapeY k r i ≤ 3) := by
  interval_cases k <;> interval_cases r <;> decide

/-- C13, witness: the J piece in rotation 3. -/
theorem C13_table_wellformed_witness :
    (5 < 7 ∧ 3 < 4) ∧
    (tetromino 5).numCells = 4 ∧
    (tetromino 5).shapes.length = 4 ∧
    ((tetromino 5).shapes.getD 3 []).length = 4 ∧
    ((tetromino 5).shapes.getD 3 []).Nodup :=
  ⟨⟨by decide, by decide⟩, (C13_table_wellformed 5 3 (by decide) (by decide)).1,
    (C13_table_wellformed 5 3 (by decide) (by decide)).2.1,
    (C13_table_wellformed 5 3 (by decide) (by decide)).2.2.1,
    (C13_table_wellformed 5 3 (by decide) (by decide)).2.2.2.1⟩

/-! ## C14: the rotation cycle of the table -/

/-- C14, evaluated on the table: the kinds I, O, T, S, Z and L encode the
rotation cycle in one direction (T clockwise, L counter-clockwise), and T and L
have four pairwise different orientations. The kind J (index 5) does not:
states 1 and 2 are the clockwise turns of states 0 and 1, but state 3 is the
counter-clockwise turn of state 2, which is the shape of state 1 again, and
state 0 is the counter-clockwise turn of state 3; so no single direction fits
and J has three orientations, the fourth, `(1,0) (1,1) (1,2) (0,2)`, missing. -/
theorem C14_J_breaks_rotation_cycle :
    (standardCycle 0 = true ∧ standardCycle 1 = true ∧ standardCycle 2 = true ∧
      standardCycle 3 = true ∧ standardCycle 4 = true ∧ standardCycle 6 = true) ∧
    (followsCycle turnCW 2 = true ∧ followsCycle turnCCW 6 = true) ∧
    (distinctOrientations 2 = true ∧ distinctOrientations 6 = true) ∧
    standardCycle 5 = false ∧
    distinctOrientations 5 = false ∧
    ((List.range 4).map
        (fun r => sameShape (stateCells 5 ((r + 1) % 4)) ((stateCells 5 r).map turnCW)) =
      [true, true, false, false]) ∧
    ((List.range 4).map
        (fun r => sameShape (stateCells 5 ((r + 1) % 4)) ((stateCells 5 r).map turnCCW)) =
      [false, false, true, true]) ∧
    stateCells 5 1 = [(1, 0), (2, 0), (1, 1), (1, 2)] ∧
    stateCells 5 3 = [(0, 0), (0, 1), (0, 2), (1, 0)] ∧
    sameShape (stateCells 5 3) (stateCells 5 1) = true ∧
    sameShape ((stateCells 5 2).map turnCW) [(1, 0), (1, 1), (1, 2), (0, 2)] = true := by
  decide

/-- The failure of J does not depend on how "up to translation" is decided:
no translation maps the clockwise turn of state 2 onto state 3, and none maps
the counter-clockwise turn of state 0 onto state 1. -/
theorem J_table_fits_no_direction (t : Int × Int) :
    ¬ (∀ c : Int × Int, c ∈ stateCells 5 3 ↔
        c ∈ ((stateCells 5 2).map turnCW).map (fun c => (c.1 + t.1, c.2 + t.2))) ∧
    ¬ (∀ c : Int × Int, c ∈ stateCells 5 1 ↔
        c ∈ ((stateCells 5 0).map turnCCW).map (fun c => (c.1 + t.1, c.2 + t.2))) := by
  obtain ⟨a, b⟩ := t
  have h3 : stateCells 5 3 = [(0, 0), (0, 1), (0, 2), (1, 0)] := by decide
  have h1 : stateCells 5 1 = [(1, 0), (2, 0), (1, 1), (1, 2)] := by decide
  have hcw : (stateCells 5 2).map turnCW = [(0, 0), (0, 1), (0, 2), (-1, 2)] := by decide
  have hccw : (stateCells 5 0).map turnCCW = [(0, 0), (1, 0), (1, -1), (1, -2)] := by decide
  rw [h3, h1, hcw, hccw]
  constructor
  · intro h
    have e1 := (h (0 + a, 0 + b)).2 (by simp)
    have e2 := (h (0 + a, 2 + b)).2 (by simp)
    have e4 := (h (-1 + a, 2 + b)).2 (by simp)
    simp only [List.mem_cons, Prod.mk.injEq, List.mem_singleton, List.not_mem_nil,
      or_false] at e1 e2 e4
    omega
  · intro h
    have e1 := (h (0 + a, 0 + b)).2 (by simp)
    have e2 := (h (1 + a, 0 + b)).2 (by simp)
    have e3 := (h (1 + a, -1 + b)).2 (by simp)
    have e4 := (h (1 + a, -2 + b)).2 (by simp)
    simp only [List.mem_cons, Prod.mk.injEq, List.mem_singleton, List.not_mem_nil,
      or_false] at e1 e2 e3 e4
    omega

/-! ## C15: the piece selection of the spawn -/

/-- The selection loop started at position `pos`: when the first `n` rounds
all repeat (candidate equal to `lastPiece`, re-draw value below 70) and round
`n` does not, the loop returns after `n + 1` passes with the candidate of round
`n`; with fuel for at most `n` passes it does not return. -/
theorem selectPieceLoop_spec (rnd : Nat → Nat) (lastPiece : Nat) (n : Nat) :
    ∀ (fuel pos draws : Nat),
      (∀ j, j < n →
        rnd (pos + 2 * j) % 7 = lastPiece ∧ rnd (pos + 2 * j + 1) % 100 < 70) →
      ¬ (rnd (pos + 2 * n) % 7 = lastPiece ∧ rnd (pos + 2 * n + 1) % 100 < 70) →
      (n + 1 ≤ fuel →
        selectPieceLoop fuel rnd lastPiece pos draws =
          some (rnd (pos + 2 * n) % 7, draws + n + 1)) ∧
      (fuel ≤ n → selectPieceLoop fuel rnd lastPiece pos draws = none) := by
  induction n with
  | zero =>
    intro fuel pos draws _ hstop
    constructor
    · intro hf
      cases fuel with
      | zero => omega
      | succ f =>
        rw [selectPieceLoop, if_neg (by simpa using hstop)]
        simp
    · intro hf
      have : fuel = 0 := by omega
      subst this
      rfl
  | succ m ih =>
    intro fuel pos draws hrep hstop
    have h0 := hrep 0 (by omega)
    have ih' := fun f => ih f (pos + 2) (draws + 1)
      (by
        intro j hj
        have := hrep (j + 1) (by omega)
        have e : pos + 2 * (j + 1) = pos + 2 + 2 * j := by omega
        rw [e] at this
        exact this)
      (by
        have e : pos + 2 * (m + 1) = pos + 2 + 2 * m := by omega
        rw [e] at hstop
        exact hstop)
    cases fuel with
    | zero => exact ⟨fun hf => by omega, fun _ => rfl⟩
    | succ f =>
      rw [selectPieceLoop, if_pos (by simpa using h0)]
      constructor
      · intro hf
        rw [(ih' f).1 (by omega)]
        have e : pos + 2 * (m + 1) = pos + 2 + 2 * m := by omega
        rw [e]
        congr 2
        omega
      · intro hf
        exact (ih' f).2 (by omega)

/-- The selection loop never returns on a random source whose every round
repeats. -/
theorem selectPieceLoop_diverges (rnd : Nat → Nat) (lastPiece : Nat) :
    ∀ (fuel pos draws : Nat),
      (∀ j, rnd (pos + 2 * j) % 7 = lastPiece ∧ rnd (pos + 2 * j + 1) % 100 < 70) →
      selectPieceLoop fuel rnd lastPiece pos draws = none := by
  intro fuel
  induction fuel with
  | zero => intro pos draws _; rfl
  | succ f ih =>
    intro pos draws hrep
    rw [selectPieceLoop, if_pos (by simpa using hrep 0)]
    apply ih
    intro j
    have := hrep (j + 1)
    have e : pos + 2 * (j + 1) = pos + 2 + 2 * j := by omega
    rw [e] at this
    exact this

/-- C15, refuted as stated: with previous kind 3 and the random values 3, 0,
3, 0, 5 the selection draws three candidates (it does not return within two
passes) and selects the third; with a random source that always returns 3 it
never returns, whatever the number of passes allowed. -/
theorem C15_selection_counterexample :
    selectPieceLoop 2 sampleRandom 3 0 0 = none ∧
    selectPieceLoop 3 sampleRandom 3 0 0 = some (5, 3) ∧
    (∀ fuel, selectPieceLoop fuel (fun _ => 3) 3 0 0 = none) ∧
    (∀ fuel g, g.lastPiece = 3 → spawnNewPieceRandom fuel g (fun _ => 3) = none) := by
  refine ⟨by decide, by decide, ?_, ?_⟩
  · intro fuel
    exact selectPieceLoop_diverges _ 3 fuel 0 0 (fun _ => by decide)
  · intro fuel g hg
    unfold spawnNewPieceRandom
    rw [hg, selectPieceLoop_diverges _ 3 fuel 0 0 (fun _ => by decide)]

/-- C15, amended: the selection is a loop that draws a candidate kind and
draws again while the candidate equals the previous kind and the value drawn
in 0..99 is below 70. For every previous kind and random sequence, if round
`n` is the first round that does not repeat, the selection returns after
exactly `n + 1` candidate draws (not with fewer passes) and selects the last
candidate, a kind in 0..6; `spawnNewPiece` then spawns that kind. -/
theorem C15_selection_amended (rnd : Nat → Nat) (lastPiece n : Nat)
    (hrep : ∀ j, j < n → rnd (2 * j) % 7 = lastPiece ∧ rnd (2 * j + 1) % 100 < 70)
    (hstop : ¬ (rnd (2 * n) % 7 = lastPiece ∧ rnd (2 * n + 1) % 100 < 70)) :
    (∀ fuel, n + 1 ≤ fuel →
      selectPieceLoop fuel rnd lastPiece 0 0 = some (rnd (2 * n) % 7, n + 1)) ∧
    (∀ fuel, fuel ≤ n → selectPieceLoop fuel rnd lastPiece 0 0 = none) ∧
    rnd (2 * n) % 7 < 7 ∧
    (∀ fuel g, n + 1 ≤ fuel → g.lastPiece = lastPiece →
      spawnNewPieceRandom fuel g rnd = some (spawnNewPiece g (rnd (2 * n) % 7))) := by
  have h := fun fuel => selectPieceLoop_spec rnd lastPiece n fuel 0 0
    (by intro j hj; simpa using hrep j hj) (by simpa using hstop)
  have h1 : ∀ fuel, n + 1 ≤ fuel →
      selectPieceLoop fuel rnd lastPiece 0 0 = some (rnd (2 * n) % 7, n + 1) := by
    intro fuel hf
    have := (h fuel).1 hf
    simpa using this
  refine ⟨h1, fun fuel hf => (h fuel).2 hf, Nat.mod_lt _ (by omega), ?_⟩
  intro fuel g hf hg
  unfold spawnNewPieceRandom
  rw [hg, h1 fuel hf]

/-- C15 amended, witness: previous kind 3 and the random values 3, 0, 3, 0,
5: rounds 0 and 1 repeat, round 2 selects kind 5 after three draws. -/
theorem C15_selection_amended_witness :
    ((∀ j, j < 2 → sampleRandom (2 * j) % 7 = 3 ∧ sampleRandom (2 * j + 1) % 100 < 70) ∧
      ¬ (sampleRandom (2 * 2) % 7 = 3 ∧ sampleRandom (2 * 2 + 1) % 100 < 70)) ∧
    (∀ fuel, 2 + 1 ≤ fuel →
      selectPieceLoop fuel sampleRandom 3 0 0 = some (sampleRandom (2 * 2) % 7, 2 + 1)) ∧
    sampleRandom (2 * 2) % 7 = 5 :=
  ⟨⟨by decide, by decide⟩,
    (C15_selection_amended sampleRandom 3 2 (by decide) (by decide)).1, by decide⟩

/-! ## C16: game over -/

/-- The pause check writes only `pausePressed`, `isPaused` and
`lastButtonCheckTime`. -/
theorem checkPauseButton_frame (g : Game) (inp : Input) :
    (checkPauseButton g inp).gameBoard = g.gameBoard ∧
    (checkPauseButton g inp).boardColors = g.boardColors ∧
    (checkPauseButton g inp).currentPiece = g.currentPiece ∧
    (checkPauseButton g inp).currentRotation = g.currentRotation ∧
    (checkPauseButton g inp).currentX = g.currentX ∧
    (checkPauseButton g inp).currentY = g.currentY ∧
    (checkPauseButton g inp).score = g.score ∧
    (checkPauseButton g inp).level = g.level ∧
    (checkPauseButton g inp).gameSpeed = g.gameSpeed ∧
    (checkPauseButton g inp).gameOver = g.gameOver ∧
    (checkPauseButton g inp).lastFallTime = g.lastFallTime := by
  unfold checkPauseButton
  simp only []
  split_ifs <;> exact ⟨rfl, rfl, rfl, rfl, rfl, rfl, rfl, rfl, rfl, rfl, rfl⟩

/-- An iteration that starts with the game over and does not reset ends
right after the pause check. -/
theorem loop_game_over (fuel : Nat) (g : Game) (inp : Input) (hgo : g.gameOver = true)
    (hq : loopResets g inp = false) : loop fuel g inp = some (checkPauseButton g inp) := by
  have hgo' : (checkPauseButton g inp).gameOver = true := by
    rw [(checkPauseButton_frame g inp).2.2.2.2.2.2.2.2.2.1]; exact hgo
  unfold loop
  simp only []
  by_cases hp : (checkPauseButton g inp).isPaused = true
  · rw [if_pos hp]
  · rw [if_neg hp, if_pos hgo']
    have ha : checkAnyButtonPressed inp = false := by
      unfold loopResets at hq
      rw [hgo'] at hq
      simp only [Bool.not_eq_true] at hp
      rw [hp] at hq
      simpa using hq
    rw [ha]
    simp

theorem loop_game_over_reset (fuel : Nat) (g : Game) (inp : Input)
    (hq : loopResets g inp = true) :
    loop fuel g inp = some (resetGame (checkPauseButton g inp) (inp.newPiece 2)) := by
  unfold loopResets at hq
  simp only [Bool.and_eq_true, Bool.not_eq_true', Bool.not_eq_eq_eq_not, Bool.not_true] at hq
  obtain ⟨⟨h1, h2⟩, h3⟩ := hq
  unfold loop
  simp only [h1, h2, h3, Bool.false_eq_true, if_false, if_true]

/-- C16, refuted as stated. In `columnGame` the hard drop locks the I piece
in row 0, the spawn of the Z piece fails and `gameOver` is set with cell (3, 1)
still free; the gravity test of the same iteration then fires, the move down
fails, and the Z piece is locked into the board: at the end of the iteration
cell (3, 1) is occupied. In `stackedGame500` the gravity lock sets `gameOver`
at level 1 and the level test that follows raises the level to 2. -/
theorem C16_game_over_counterexample :
    (columnGame.gameOver = false ∧
      (checkGameButtons 16 (checkPauseButton columnGame dropInput) dropInput).map
        (fun a => (a.gameOver, a.gameBoard 3 1, a.gameBoard 4 1)) =
        some (true, false, false) ∧
      (loop 16 columnGame dropInput).map
        (fun b => (b.gameOver, b.gameBoard 3 1, b.gameBoard 4 1)) =
        some (true, true, true)) ∧
    (stackedGame500.gameOver = false ∧
      (lockAndSpawn 16 stackedGame500 0).map (fun a => (a.gameOver, a.score, a.level)) =
        some (true, 500, 1) ∧
      (loop 16 stackedGame500 tickInput).map (fun b => (b.gameOver, b.score, b.level)) =
        some (true, 500, 2)) := by
  decide

/-- C16, amended: from a state in which `gameOver` is true, a run of
iterations of `loop` none of which runs `resetGame` returns with `gameOver`
still true and with the board, its colours, the score, the level, the active
piece, the gravity interval and `lastFallTime` unchanged: no gravity tick,
lock, line clear or level-up fires in those iterations; and an iteration that
resets does exactly `resetGame` after the pause check. -/
theorem C16_game_over_amended (fuel : Nat) (inps : List Input) (g : Game)
    (hgo : g.gameOver = true) (hq : runResets fuel g inps = false) :
    (∃ g', runLoop fuel g inps = some g' ∧
      g'.gameOver = true ∧
      g'.gameBoard = g.gameBoard ∧ g'.boardColors = g.boardColors ∧
      g'.score = g.score ∧ g'.level = g.level ∧
      g'.currentPiece = g.currentPiece ∧ g'.currentRotation = g.currentRotation ∧
      g'.currentX = g.currentX ∧ g'.currentY = g.currentY ∧
      g'.gameSpeed = g.gameSpeed ∧ g'.lastFallTime = g.lastFallTime) ∧
    (∀ inp, loopResets g inp = true →
      loop fuel g inp = some (resetGame (checkPauseButton g inp) (inp.newPiece 2))) := by
  refine ⟨?_, fun inp h => loop_game_over_reset fuel g inp h⟩
  induction inps generalizing g with
  | nil => exact ⟨g, rfl, hgo, rfl, rfl, rfl, rfl, rfl, rfl, rfl, rfl, rfl, rfl⟩
  | cons inp rest ih =>
    unfold runResets at hq
    rw [Bool.or_eq_false_iff] at hq
    obtain ⟨hq1, hq2⟩ := hq
    have hstep := loop_game_over fuel g inp hgo hq1
    rw [hstep] at hq2
    simp only [] at hq2
    obtain ⟨h1, h2, h3, h4, h5, h6, h7, h8, h9, h10, h11⟩ := checkPauseButton_frame g inp
    obtain ⟨g', hr, e0, e1, e2, e3, e4, e5, e6, e7, e8, e9, e10⟩ :=
      ih (checkPauseButton g inp) (by rw [h10]; exact hgo) hq2
    refine ⟨g', ?_, e0, ?_, ?_, ?_, ?_, ?_, ?_, ?_, ?_, ?_, ?_⟩
    · unfold runLoop
      rw [hstep]
      exact hr
    · rw [e1, h1]
    · rw [e2, h2]
    · rw [e3, h7]
    · rw [e4, h8]
    · rw [e5, h3]
    · rw [e6, h4]
    · rw [e7, h5]
    · rw [e8, h6]
    · rw [e9, h9]
    · rw [e10, h11]

/-- C16 amended, witness: after the game is over and with the game not
paused, two iterations with no button pressed and the gravity timer due. Each
passes the pause test, reaches the game-over branch of `loop` and stops there:
the due gravity tick does not fire and the state is as before. With the
hard-drop button pressed instead, the iteration resets. -/
theorem C16_game_over_amended_witness :
    (overGame.gameOver = true ∧ runResets 16 overGame [tickInput, tickInput] = false) ∧
    (overGame.isPaused = false ∧
      (checkPauseButton overGame tickInput).isPaused = false ∧
      (checkPauseButton overGame tickInput).gameOver = true ∧
      usub32 (tickInput.now 7) overGame.lastFallTime > overGame.gameSpeed) ∧
    (∃ g', runLoop 16 overGame [tickInput, tickInput] = some g' ∧
      g'.gameOver = true ∧
      g'.gameBoard = overGame.gameBoard ∧ g'.boardColors = overGame.boardColors ∧
      g'.score = overGame.score ∧ g'.level = overGame.level ∧
      g'.currentPiece = overGame.currentPiece ∧
      g'.currentRotation = overGame.currentRotation ∧
      g'.currentX = overGame.currentX ∧ g'.currentY = overGame.currentY ∧
      g'.gameSpeed = overGame.gameSpeed ∧ g'.lastFallTime = overGame.lastFallTime) ∧
    (runLoop 16 overGame [tickInput, tickInput]).map (fun g => g.isPaused) = some false ∧
    (loopResets overGame dropInput = true ∧
      loop 16 overGame dropInput =
        some (resetGame (checkPauseButton overGame dropInput) (dropInput.newPiece 2))) :=
  ⟨⟨by decide, by decide⟩, ⟨by decide, by decide, by decide, by decide⟩,
    (C16_game_over_amended 16 [tickInput, tickInput] overGame (by decide) (by decide)).1,
    by decide,
    ⟨by decide,
      (C16_game_over_amended 16 [tickInput, tickInput] overGame (by decide) (by decide)).2
        dropInput (by decide)⟩⟩

/-! ## C17: the shared debounce -/

theorem countP_take_succ (g : Game) (n : Nat) (hn : n < 8) :
    ((rowsOf g).take (n + 1)).countP rowFull =
      ((rowsOf g).take n).countP rowFull + if isFullLine g n = true then 1 else 0 := by
  have hlen : n < (rowsOf g).length := by rw [rowsOf_length]; exact hn
  rw [take_succ_getElem (rowsOf g) n hlen, rowsOf_getElem, List.countP_append,
    isFullLine_eq_rowFull]
  simp [List.countP_cons]

theorem countP_take_after_clear (g : Game) (n : Nat) (hn : n < 8) :
    ((rowsOf (clearTopRow (shiftRowsDown n g))).take (n + 1)).countP rowFull =
      ((rowsOf g).take n).countP rowFull := by
  have hlen : n < (rowsOf g).length := by rw [rowsOf_length]; exact hn
  rw [rowsOf_clear g n hn, take_succ_cons_eraseIdx _ _ _ hlen, List.countP_cons,
    emptyRow_not_full]
  simp

/-- With fuel for fewer passes than rows to visit plus full rows to clear,
the sweep does not return. -/
theorem clearLinesLoop_starved (fuel : Nat) :
    ∀ (m : Nat) (g : Game) (c : Nat), m ≤ 8 →
      fuel < m + ((rowsOf g).take m).countP rowFull →
      clearLinesLoop fuel ((m : Int) - 1) g c = none := by
  induction fuel with
  | zero =>
    intro m g c _ hf
    cases m with
    | zero => simp at hf
    | succ n =>
      have hcast : ((n + 1 : Nat) : Int) - 1 = (n : Int) := by omega
      rw [hcast]
      exact clearLinesLoop_noFuel n g c
  | succ f ih =>
    intro m g c hm hf
    cases m with
    | zero => simp at hf
    | succ n =>
      have hcast : ((n + 1 : Nat) : Int) - 1 = (n : Int) := by omega
      rw [hcast]
      have hk := countP_take_succ g n (by omega)
      cases hfull : isFullLine g n with
      | true =>
        rw [clearLinesLoop_full _ _ _ _ hfull]
        rw [hfull] at hk
        have hk1 := countP_take_after_clear g n (by omega)
        have := ih (n + 1) (clearTopRow (shiftRowsDown n g)) (c + 1) hm
          (by rw [hk1]; simp only [if_true] at hk; omega)
        rw [hcast] at this
        exact this
      | false =>
        rw [clearLinesLoop_notFull _ _ _ _ hfull]
        rw [hfull] at hk
        exact ih n g c (by omega) (by simp only [Bool.false_eq_true, if_false] at hk; omega)

/-- A clear takes one full row away: the row put in at the top is empty and
the other rows are kept. -/
theorem fullRowCount_after_clear (g : Game) (y : Nat) (hy : y < 8)
    (hfull : isFullLine g y = true) :
    fullRowCount (clearTopRow (shiftRowsDown y g)) + 1 = fullRowCount g := by
  have hlen : y < (rowsOf g).length := by rw [rowsOf_length]; exact hy
  unfold fullRowCount
  rw [rowsOf_clear g y hy, List.countP_cons, emptyRow_not_full, List.eraseIdx_eq_take_drop_succ]
  have hsplit : rowsOf g = (rowsOf g).take y ++ (rowsOf g)[y] :: (rowsOf g).drop (y + 1) := by
    rw [← List.drop_eq_getElem_cons hlen, List.take_append_drop]
  have hrf : rowFull (rowsOf g)[y] = true := by
    rw [rowsOf_getElem, ← isFullLine_eq_rowFull]; exact hfull
  conv_rhs => rw [hsplit]
  simp only [List.countP_append, List.countP_cons, hrf, if_true, Bool.false_eq_true, if_false]
  omega

/-- C18: the sweep of `clearLines` terminates on every board, and its body
runs exactly `8 + k` times, `k <= 8` being the number of full rows of the
initial board: with fuel for `8 + k` passes of the body the sweep and
`clearLines` return, with fuel for fewer they do not; in particular 16 passes
always suffice. Every clear of a full row lowers the number of full rows by
one. -/
theorem C18_clearLines_terminates (g : Game) :
    fullRowCount g ≤ 8 ∧
    (∀ fuel, 8 + fullRowCount g ≤ fuel →
      ∃ g', clearLinesLoop fuel ((MATRIX_HEIGHT : Int) - 1) g 0 = some (g', fullRowCount g)) ∧
    (∀ fuel, fuel < 8 + fullRowCount g →
      clearLinesLoop fuel ((MATRIX_HEIGHT : Int) - 1) g 0 = none) ∧
    (∀ fuel, (clearLines fuel g).isSome = true ↔ 8 + fullRowCount g ≤ fuel) ∧
    (∃ g', clearLines 16 g = some g') ∧
    (∀ y, y < 8 → isFullLine g y = true →
      fullRowCount (clearTopRow (shiftRowsDown y g)) + 1 = fullRowCount g) := by
  have hle := fullRowCount_le g
  have htk : (rowsOf g).take 8 = rowsOf g := List.take_of_length_le (by rw [rowsOf_length])
  have hstarve : ∀ fuel, fuel < 8 + fullRowCount g →
      clearLinesLoop fuel ((MATRIX_HEIGHT : Int) - 1) g 0 = none := by
    intro fuel hf
    have := clearLinesLoop_starved fuel 8 g 0 (le_refl _) (by rw [htk]; exact hf)
    simpa using this
  refine ⟨hle, ?_, hstarve, ?_, ?_, fun y hy hf => fullRowCount_after_clear g y hy hf⟩
  · intro fuel hf
    obtain ⟨g', h, _⟩ := clearLinesLoop_full_sweep fuel g hf
    exact ⟨g', h⟩
  · intro fuel
    constructor
    · intro hs
      by_contra hlt
      have hn := hstarve fuel (by omega)
      unfold clearLines at hs
      rw [hn] at hs
      simp at hs
    · intro hf
      obtain ⟨g', h, _⟩ := clearLines_spec fuel g hf
      rw [h]
      rfl
  · obtain ⟨g', h, _⟩ := clearLines_spec 16 g (by omega)
    exact ⟨g', h⟩

/-! ## C19: no full row survives a line clear -/

theorem fullRowCount_eq_filter (g : Game) :
    fullRowCount g = ((List.range 8).filter (fun y => isFullLine g y)).length := by
  unfold fullRowCount rowsOf
  rw [List.countP_map, List.countP_eq_length_filter]
  congr 2

theorem fullRowCount_eq_zero_iff (g : Game) :
    fullRowCount g = 0 ↔ ∀ y, y < 8 → isFullLine g y = false := by
  rw [fullRowCount_eq_filter, List.length_eq_zero, List.filter_eq_nil_iff]
  simp only [List.mem_range, Bool.not_eq_true]

theorem isFullLine_false_iff (g : Game) (y : Nat) :
    isFullLine g y = false ↔ ∃ x, x < 8 ∧ g.gameBoard x y = false := by
  unfold isFullLine
  rw [← Bool.not_eq_true, List.all_eq_true]
  simp only [MATRIX_WIDTH, List.mem_range, not_forall, Bool.not_eq_true, exists_prop]

theorem isFullLine_true_iff (g : Game) (y : Nat) :
    isFullLine g y = true ↔ ∀ x, x < 8 → g.gameBoard x y = true := by
  unfold isFullLine
  rw [List.all_eq_true]
  simp only [MATRIX_WIDTH, List.mem_range]

/-- On a board without a full row the sweep changes nothing and counts no
line. -/
theorem clearLinesLoop_noFull (m : Nat) :
    ∀ (fuel : Nat) (g : Game) (c : Nat),
      (∀ y, y < m → isFullLine g y = false) → m ≤ fuel →
      clearLinesLoop fuel ((m : Int) - 1) g c = some (g, c) := by
  induction m with
  | zero =>
    intro fuel g c _ _
    exact clearLinesLoop_done _ _ (by omega) _ _
  | succ n ih =>
    intro fuel g c hno hf
    have hcast : ((n + 1 : Nat) : Int) - 1 = (n : Int) := by omega
    rw [hcast]
    cases fuel with
    | zero => omega
    | succ f =>
      rw [clearLinesLoop_notFull _ _ _ _ (hno n (by omega))]
      exact ih f g c (fun y hy => hno y (by omega)) (by omega)

theorem clearLines_noFull (fuel : Nat) (g : Game) (hno : fullRowCount g = 0) (hf : 8 ≤ fuel) :
    clearLines fuel g = some g := by
  unfold clearLines
  have := clearLinesLoop_noFull 8 fuel g 0 ((fullRowCount_eq_zero_iff g).1 hno) hf
  have hcast : ((MATRIX_HEIGHT : Nat) : Int) - 1 = ((8 : Nat) : Int) - 1 := rfl
  rw [hcast, this]
  simp

theorem numCells_le_four (k : Nat) : (tetromino k).numCells ≤ 4 := by
  by_cases hk : k < 7
  · rw [numCells_eq_four hk]
  · unfold tetromino
    rw [List.getD_eq_default _ _ (by simp [tetrominos]; omega)]
    exact Nat.zero_le _

/-- Locking a piece on a board without a full row makes at most four rows
full: a row that becomes full holds a cell of the piece. -/
theorem fullRowCount_placePiece_le (g : Game) (hno : fullRowCount g = 0) :
    fullRowCount (placePiece g) ≤ 4 := by
  have hno' := (fullRowCount_eq_zero_iff g).1 hno
  obtain ⟨_, hb, _, _⟩ := foldl_placeCell (List.range (tetromino g.currentPiece).numCells) g
  rw [fullRowCount_eq_filter]
  have hsub : (List.range 8).filter (fun y => isFullLine (placePiece g) y) ⊆
      (List.range (tetromino g.currentPiece).numCells).map
        (fun i => (pieceCellY g i).toNat) := by
    intro y hy
    rw [List.mem_filter, List.mem_range] at hy
    obtain ⟨hy8, hfull⟩ := hy
    obtain ⟨x, hx, hfree⟩ := (isFullLine_false_iff g y).1 (hno' y hy8)
    have hocc := (isFullLine_true_iff (placePiece g) y).1 hfull x hx
    have hb' := (hb x y).1 hocc
    rcases hb' with h | ⟨i, hi, hhit⟩
    · rw [hfree] at h; exact Bool.noConfusion h
    · rw [List.mem_map]
      refine ⟨i, hi, ?_⟩
      obtain ⟨_, _, hyq⟩ := hhit
      omega
  have hnd : ((List.range 8).filter (fun y => isFullLine (placePiece g) y)).Nodup :=
    (List.nodup_range 8).filter _
  have hlen := (List.subperm_of_subset hnd hsub).length_le
  rw [List.length_map, List.length_range] at hlen
  exact le_trans hlen (numCells_le_four _)

theorem linePoints_fallthrough (n level : Nat) (hn : 5 ≤ n) : linePoints n level = 0 := by
  unfold linePoints
  split <;> omega

/-- C19: after `clearLines` no board row is full, whatever the input board,
and a second `clearLines` right after the first returns the same state (board
and score unchanged). On a board with no full row, for every active piece,
`placePiece` makes at most 4 rows full, so the `clearLines` that follows scores
0 lines or one of the four table entries, never the zero-point fall-through
that `clearLines` applies to 5 or more lines. -/
theorem C19_no_full_row_invariant (g : Game) :
    (∀ fuel g', clearLines fuel g = some g' →
      fullRowCount g' = 0 ∧
      (∀ y, y < 8 → isFullLine g' y = false) ∧
      (∀ fuel2, 8 ≤ fuel2 → clearLines fuel2 g' = some g')) ∧
    (fullRowCount g = 0 →
      fullRowCount (placePiece g) ≤ 4 ∧
      ∀ fuel, 12 ≤ fuel →
        ∃ g', clearLines fuel (placePiece g) = some g' ∧
          (fullRowCount (placePiece g) = 0 → g'.score = g.score) ∧
          (1 ≤ fullRowCount (placePiece g) →
            g'.score = (g.score + scoreBase (fullRowCount (placePiece g)) * g.level) % U32 ∧
            scoreBase (fullRowCount (placePiece g)) ∈ [20, 50, 150, 600])) ∧
    (∀ n level, 5 ≤ n → linePoints n level = 0) := by
  refine ⟨?_, ?_, fun n level hn => linePoints_fallthrough n level hn⟩
  · intro fuel g' h
    have hfuel : 8 + fullRowCount g ≤ fuel := by
      by_contra hlt
      have hn := clearLinesLoop_starved fuel 8 g 0 (le_refl _)
        (by
          rw [List.take_of_length_le (by rw [rowsOf_length])]
          unfold fullRowCount at hlt
          omega)
      unfold clearLines at h
      have hcast : ((MATRIX_HEIGHT : Nat) : Int) - 1 = ((8 : Nat) : Int) - 1 := rfl
      rw [hcast, hn] at h
      exact Option.noConfusion h
    obtain ⟨g2, h2, hrows, _⟩ := clearLines_spec fuel g hfuel
    rw [h] at h2
    injection h2 with h2
    subst h2
    have hzero : fullRowCount g' = 0 := by
      unfold fullRowCount
      rw [hrows, List.countP_eq_zero]
      intro r hr
      rcases List.mem_append.1 hr with hr | hr
      · rw [List.eq_of_mem_replicate hr, emptyRow_not_full]
        exact Bool.false_ne_true
      · have := (List.mem_filter.1 hr).2
        simpa using this
    exact ⟨hzero, (fullRowCount_eq_zero_iff g').1 hzero,
      fun fuel2 hf2 => clearLines_noFull fuel2 g' hzero hf2⟩
  · intro hno
    have hle := fullRowCount_placePiece_le g hno
    refine ⟨hle, ?_⟩
    intro fuel hf
    obtain ⟨g', h, _, hg'⟩ := clearLines_spec fuel (placePiece g) (by omega)
    have hscore : g'.score = if 0 < fullRowCount (placePiece g) then
        uadd32 (placePiece g).score (linePoints (fullRowCount (placePiece g)) (placePiece g).level)
        else (placePiece g).score := by
      rw [hg']
    have hs : (placePiece g).score = g.score := by rw [placePiece_fields g]
    have hl : (placePiece g).level = g.level := by rw [placePiece_fields g]
    rw [hs, hl] at hscore
    refine ⟨g', h, ?_, ?_⟩
    · intro h0
      rw [hscore, h0]
      simp
    · intro h1
      constructor
      · rw [hscore, if_pos (by omega), linePoints_eq]
        unfold uadd32
        rw [Nat.add_mod_mod]
      · have h4 := hle
        generalize fullRowCount (placePiece g) = n at h1 h4
        interval_cases n <;> simp [scoreBase]

set_option maxRecDepth 100000 in
/-- The bound of four is reached and the hypotheses occur: `crossingGame`
and `fourLineLockGame` have no full row, and locking their piece makes one and
four rows full; the four-line lock scores 600 at level 1. -/
theorem lock_examples :
    (fullRowCount crossingGame = 0 ∧ fullRowCount (placePiece crossingGame) = 1) ∧
    (fullRowCount fourLineLockGame = 0 ∧ fullRowCount (placePiece fourLineLockGame) = 4) ∧
    (clearLines 12 (placePiece fourLineLockGame)).map (fun g => g.score) = some 600 := by
  decide

/-! ## C20: every array access is in range -/

theorem isValidPositionTraced_result (g : Game) (k r : Nat) (posX posY : Int)
    (cells : List Nat) :
    (isValidPositionTraced g k r posX posY cells).1 =
      cells.all fun i => cellAllowed g (posX + shapeX k r i) (posY + shapeY k r i) := by
  induction cells with
  | nil => rfl
  | cons i rest ih =>
    rw [isValidPositionTraced, List.all_cons, cellAllowed]
    split_ifs <;> simp_all

theorem isValidPositionTraced_reads (g : Game) (k r : Nat) (posX posY : Int)
    (cells : List Nat) :
    ∀ p, p ∈ (isValidPositionTraced g k r posX posY cells).2 →
      0 ≤ p.1 ∧ p.1 < 8 ∧ 0 ≤ p.2 ∧ p.2 < 8 := by
  induction cells with
  | nil => intro p hp; simp [isValidPositionTraced] at hp
  | cons i rest ih =>
    intro p hp
    rw [isValidPositionTraced] at hp
    simp only [MATRIX_WIDTH, MATRIX_HEIGHT, Nat.cast_ofNat, ge_iff_le] at hp
    split_ifs at hp with h1 h2 h3 h4
    · simp at hp
    · simp at hp
    · simp only [List.mem_singleton] at hp
      subst hp
      simp only
      omega
    · simp only [List.mem_cons] at hp
      rcases hp with hp | hp
      · subst hp
        simp only
        omega
      · exact ih p hp
    · exact ih p hp

theorem placePieceWrites_in_range (g : Game) :
    ∀ p, p ∈ placePieceWrites g → 0 ≤ p.1 ∧ p.1 < 8 ∧ 0 ≤ p.2 ∧ p.2 < 8 := by
  intro p hp
  unfold placePieceWrites at hp
  rw [List.mem_filterMap] at hp
  obtain ⟨i, _, hi⟩ := hp
  simp only [MATRIX_WIDTH, MATRIX_HEIGHT, Nat.cast_ofNat, ge_iff_le] at hi
  split_ifs at hi with h
  injection hi with hi
  subst hi
  exact h

/-- The writes collected by `placePieceWrites` are the cells `placePiece`
sets. -/
theorem placePieceWrites_iff (g : Game) (x y : Nat) :
    (((x : Int), (y : Int)) ∈ placePieceWrites g) ↔
      ∃ i, i ∈ List.range (tetromino g.currentPiece).numCells ∧ hitsCell g i x y := by
  unfold placePieceWrites hitsCell
  rw [List.mem_filterMap]
  simp only [MATRIX_WIDTH, MATRIX_HEIGHT, Nat.cast_ofNat, ge_iff_le]
  constructor
  · rintro ⟨i, hi, h⟩
    split_ifs at h with hin
    injection h with h
    simp only [Prod.mk.injEq] at h
    exact ⟨i, hi, hin, h.1.symm, h.2.symm⟩
  · rintro ⟨i, hi, hin, hx, hy⟩
    refine ⟨i, hi, ?_⟩
    rw [if_pos hin, hx, hy]

theorem shiftRowsReads_in_range (y : Nat) :
    ∀ p, p ∈ shiftRowsReads y →
      (0 ≤ p.1 ∧ p.1 < 8) ∧ ∃ row : Int, 1 ≤ row ∧ row ≤ y ∧ p.2 = row - 1 := by
  induction y with
  | zero => intro p hp; simp [shiftRowsReads] at hp
  | succ n ih =>
    intro p hp
    rw [shiftRowsReads, List.mem_append] at hp
    rcases hp with hp | hp
    · rw [List.mem_map] at hp
      obtain ⟨col, hcol, hp⟩ := hp
      simp only [MATRIX_WIDTH, List.mem_range] at hcol
      subst hp
      exact ⟨⟨by simp, by simp only; omega⟩, ((n + 1 : Nat) : Int), by omega, le_refl _, rfl⟩
    · obtain ⟨h1, row, h2, h3, h4⟩ := ih p hp
      exact ⟨h1, row, h2, by push_cast; omega, h4⟩

theorem shiftRowsWrites_in_range (y : Nat) :
    ∀ p, p ∈ shiftRowsWrites y → (0 ≤ p.1 ∧ p.1 < 8) ∧ 1 ≤ p.2 ∧ p.2 ≤ y := by
  induction y with
  | zero => intro p hp; simp [shiftRowsWrites] at hp
  | succ n ih =>
    intro p hp
    rw [shiftRowsWrites, List.mem_append] at hp
    rcases hp with hp | hp
    · rw [List.mem_map] at hp
      obtain ⟨col, hcol, hp⟩ := hp
      simp only [MATRIX_WIDTH, List.mem_range] at hcol
      subst hp
      exact ⟨⟨by simp, by simp only; omega⟩, by simp only; omega, le_refl _⟩
    · obtain ⟨h1, h2, h3⟩ := ih p hp
      exact ⟨h1, h2, by push_cast; omega⟩

theorem fullLineReads_in_range (g : Game) (y : Int) (cols : List Nat) :
    ∀ p, p ∈ fullLineReads g y cols → (∃ x, x ∈ cols ∧ p.1 = (x : Int)) ∧ p.2 = y := by
  induction cols with
  | nil => intro p hp; simp [fullLineReads] at hp
  | cons x rest ih =>
    intro p hp
    rw [fullLineReads, List.mem_cons] at hp
    rcases hp with hp | hp
    · subst hp
      exact ⟨⟨x, List.mem_cons_self _ _, rfl⟩, rfl⟩
    · split_ifs at hp
      · obtain ⟨⟨x', hx', h1⟩, h2⟩ := ih p hp
        exact ⟨⟨x', List.mem_cons_of_mem _ hx', h1⟩, h2⟩
      · simp at hp

theorem clearLinesAccesses_in_range (fuel : Nat) :
    ∀ (y : Int) (g : Game), y ≤ 7 →
      ∀ p, p ∈ clearLinesAccesses fuel y g → 0 ≤ p.1 ∧ p.1 < 8 ∧ 0 ≤ p.2 ∧ p.2 < 8 := by
  induction fuel with
  | zero =>
    intro y g _ p hp
    rw [clearLinesAccesses] at hp
    split_ifs at hp <;> simp at hp
  | succ f ih =>
    intro y g hy p hp
    rw [clearLinesAccesses] at hp
    split_ifs at hp with h0 hfull
    · simp only [List.mem_append] at hp
      rcases hp with hp | ((hp | hp) | hp) | hp
      · obtain ⟨⟨x, hx, h1⟩, h2⟩ := fullLineReads_in_range g y _ p hp
        simp only [MATRIX_WIDTH, List.mem_range] at hx
        omega
      · obtain ⟨h1, row, h2, h3, h4⟩ := shiftRowsReads_in_range y.toNat p hp
        omega
      · obtain ⟨h1, h2, h3⟩ := shiftRowsWrites_in_range y.toNat p hp
        omega
      · unfold clearTopRowWrites at hp
        rw [List.mem_map] at hp
        obtain ⟨col, hcol, hp⟩ := hp
        simp only [MATRIX_WIDTH, List.mem_range] at hcol
        subst hp
        simp only
        omega
      · exact ih _ _ (by omega) p hp
    · simp only [List.mem_append] at hp
      rcases hp with hp | hp
      · obtain ⟨⟨x, hx, h1⟩, h2⟩ := fullLineReads_in_range g y _ p hp
        simp only [MATRIX_WIDTH, List.mem_range] at hx
        omega
      · exact ih _ _ (by omega) p hp
    · simp at hp

theorem getPixelIndex_injective (x y x' y' : Int) (hx : 0 ≤ x ∧ x < 8)
    (hx' : 0 ≤ x' ∧ x' < 8)
    (h : getPixelIndex x y = getPixelIndex x' y') : x = x' ∧ y = y' := by
  unfold getPixelIndex at h
  simp only [MATRIX_WIDTH, Nat.cast_ofNat] at h
  omega

theorem getPixelIndex_in_range (x y : Int) (hx : 0 ≤ x ∧ x < 8) (hy : 0 ≤ y ∧ y < 8) :
    0 ≤ getPixelIndex x y ∧ getPixelIndex x y < 64 := by
  unfold getPixelIndex
  simp only [MATRIX_WIDTH, Nat.cast_ofNat]
  omega

theorem updateDisplayWrites_in_range (g : Game) :
    ∀ w, w ∈ updateDisplayWrites g → 0 ≤ w.1 ∧ w.1 < 64 := by
  intro w hw
  unfold updateDisplayWrites at hw
  rw [List.mem_append] at hw
  rcases hw with hw | hw
  · rw [List.mem_flatten] at hw
    obtain ⟨l, hl, hw⟩ := hw
    rw [List.mem_map] at hl
    obtain ⟨x, hx, hl⟩ := hl
    subst hl
    rw [List.mem_filterMap] at hw
    obtain ⟨y, hy, hw⟩ := hw
    simp only [MATRIX_WIDTH, MATRIX_HEIGHT, List.mem_range] at hx hy
    split_ifs at hw
    injection hw with hw
    subst hw
    exact getPixelIndex_in_range _ _ ⟨by omega, by omega⟩ ⟨by omega, by omega⟩
  · rw [List.mem_filterMap] at hw
    obtain ⟨i, _, hw⟩ := hw
    simp only [MATRIX_WIDTH, MATRIX_HEIGHT, Nat.cast_ofNat, ge_iff_le] at hw
    split_ifs at hw with h
    injection hw with hw
    subst hw
    exact getPixelIndex_in_range _ _ ⟨h.1, h.2.1⟩ ⟨h.2.2.1, h.2.2.2⟩

theorem leds_untouched (ws : List (Int × CRGB)) (leds : Int → CRGB) (i : Int)
    (hi : ∀ w, w ∈ ws → w.1 ≠ i) :
    ws.foldl (fun leds w => fun i => if i = w.1 then w.2 else leds i) leds i = leds i := by
  induction ws generalizing leds with
  | nil => rfl
  | cons w rest ih =>
    rw [List.foldl_cons, ih _ (fun w' hw' => hi w' (List.mem_cons_of_mem _ hw'))]
    have := hi w (List.mem_cons_self _ _)
    simp only [ite_eq_right_iff]
    intro h
    exact absurd h.symm this

/-- C20: every array access is in range. For every state, kind, rotation and
integer position, `isValidPosition` (whose traced form computes the same
result) reads `gameBoard[x][y]` only with `0 <= x < 8` and `0 <= y < 8`;
`placePiece` writes only such cells, which are the cells it sets; the shifting
loop of `clearLines` reads `row - 1` only for `1 <= row <= y`, and every access
of the whole sweep is inside the grid; `updateDisplay` writes `leds` only at
indices in 0..63 and leaves everything else black; and `getPixelIndex` maps the
grid into 0..63 injectively. -/
theorem C20_accesses_in_range (g : Game) (k r : Nat) (posX posY : Int) (fuel : Nat) :
    ((isValidPositionTraced g k r posX posY (List.range (tetromino k).numCells)).1 =
        isValidPosition g k r posX posY ∧
      ∀ p, p ∈ isValidPositionReads g k r posX posY →
        0 ≤ p.1 ∧ p.1 < 8 ∧ 0 ≤ p.2 ∧ p.2 < 8) ∧
    ((∀ p, p ∈ placePieceWrites g → 0 ≤ p.1 ∧ p.1 < 8 ∧ 0 ≤ p.2 ∧ p.2 < 8) ∧
      (∀ x y : Nat, (((x : Int), (y : Int)) ∈ placePieceWrites g) ↔
        ∃ i, i ∈ List.range (tetromino g.currentPiece).numCells ∧ hitsCell g i x y)) ∧
    ((∀ y : Nat, y ≤ 7 → ∀ p, p ∈ shiftRowsReads y →
        (0 ≤ p.1 ∧ p.1 < 8) ∧ ∃ row : Int, 1 ≤ row ∧ row ≤ y ∧ p.2 = row - 1) ∧
      (∀ p, p ∈ clearLinesAccesses fuel ((MATRIX_HEIGHT : Int) - 1) g →
        0 ≤ p.1 ∧ p.1 < 8 ∧ 0 ≤ p.2 ∧ p.2 < 8)) ∧
    ((∀ w, w ∈ updateDisplayWrites g → 0 ≤ w.1 ∧ w.1 < NUM_LEDS) ∧
      (∀ i : Int, (i < 0 ∨ (NUM_LEDS : Int) ≤ i) → updateDisplay g i = BLACK)) ∧
    ((∀ x y x' y' : Int, (0 ≤ x ∧ x < 8) → (0 ≤ y ∧ y < 8) → (0 ≤ x' ∧ x' < 8) →
        (0 ≤ y' ∧ y' < 8) → getPixelIndex x y = getPixelIndex x' y' → x = x' ∧ y = y') ∧
      (∀ x y : Int, (0 ≤ x ∧ x < 8) → (0 ≤ y ∧ y < 8) →
        0 ≤ getPixelIndex x y ∧ getPixelIndex x y < NUM_LEDS)) := by
  refine ⟨⟨?_, ?_⟩, ⟨placePieceWrites_in_range g, placePieceWrites_iff g⟩,
    ⟨fun y _ => shiftRowsReads_in_range y, ?_⟩, ⟨?_, ?_⟩, ⟨?_, ?_⟩⟩
  · rw [isValidPositionTraced_result]
    rfl
  · exact isValidPositionTraced_reads g k r posX posY _
  · exact clearLinesAccesses_in_range fuel _ g (by simp [MATRIX_HEIGHT])
  · intro w hw
    have := updateDisplayWrites_in_range g w hw
    simpa [NUM_LEDS] using this
  · intro i hi
    unfold updateDisplay
    rw [leds_untouched]
    intro w hw h
    have := updateDisplayWrites_in_range g w hw
    simp only [NUM_LEDS, Nat.cast_ofNat] at hi
    omega
  · intro x y x' y' hx _ hx' _ h
    exact getPixelIndex_injective x y x' y' hx hx' h
  · intro x y hx hy
    have := getPixelIndex_in_range x y hx hy
    simpa [NUM_LEDS] using this

/-- The traces on sample inputs: far outside the grid `isValidPosition`
reads nothing; at the first spawn it reads the four cells of the piece; at a
position above the grid it reads none and accepts; `placePiece` writes the four
cells; the shifting loop started at row 2 reads rows 1 and 0. -/
theorem access_examples :
    isValidPositionReads firstPieceGame 0 0 (-1000) (-1000) = [] ∧
    isValidPositionReads firstPieceGame 0 0 1000 1000 = [] ∧
    isValidPositionReads firstPieceGame 0 0 2 0 = [(2, 0), (3, 0), (4, 0), (5, 0)] ∧
    (isValidPositionReads firstPieceGame 0 1 2 (-4) = [] ∧
      isValidPosition firstPieceGame 0 1 2 (-4) = true) ∧
    isValidPositionReads stackedGame 2 0 2 0 = [(2, 0), (3, 0), (4, 0), (3, 1)] ∧
    placePieceWrites stackedGame = [(2, 0), (3, 0), (4, 0), (5, 0)] ∧
    (shiftRowsReads 2).map (fun p => p.2) =
      [1, 1, 1, 1, 1, 1, 1, 1, 0, 0, 0, 0, 0, 0, 0, 0] := by
  decide

end Tetris
